import Mathlib

/-!
Verification development for the hoek deep-clone / deep-equality core
(`clone`, `deepEqual`, `merge`, `applyToDefaults`).

The repository ships the test suite for these functions but the module
implementing them (`lib/index.ts`) is not present; only `lib/bench.ts`,
`lib/flatten.ts` and `lib/intersect.ts` are.  The engines below are
therefore modelled from the specification (spec.md §3, §4.1-§4.4, §6),
with every point on which the repository's own test suite pins a
different behaviour than the spec's wording following the tests:
  * accessor (getter/setter) properties are copied as descriptors by
    `clone`, without invoking the getter (test "clones an object with
    property getter without executing it");
  * `deepEqual` compares Error `message` with `===` and ignores `stack`
    (tests "clones Error with error message", "cloned Error handles late
    stack update");
  * `clone` keeps Map keys by reference and clones Map values
    (test "clones Map containing objects as keys (passed by reference)");
  * Map keys are matched by SameValueZero during equality, not deeply
    (test "compares maps": `new Map([[{}, 1]])` vs `new Map([[{}, 1]])`
    is not equal);
  * `applyToDefaults` does NOT let `null` override by default; the
    opt-in is `nullOverride: true` (tests "applies object to defaults",
    "applies object to defaults with null").

Machine values are modelled as a heap (`Store`): composite values are
references (`Val.ref`) to objects held at numeric addresses, which gives
reference identity, shared sub-graphs and reference cycles, all of which
the engines depend on.  JavaScript numbers are modelled as integers
plus distinguished `NaN` and `-0` (the only numeric points at which the
engines' behaviour is sensitive to non-integer structure).  Getters are
modelled as identifiers resolved through a pure environment
`GetterEnv : Nat → Val`; `clone` deliberately takes no such environment
because it never invokes a getter.
-/

/-- JavaScript number: `NaN`, `-0`, or an integer (`+0` is `int 0`).
Structural equality on this type is exactly the SameValue semantics the
equality engine uses for numbers (`NaN = NaN`, `-0 ≠ +0`). -/
inductive JsNum where
  | nan : JsNum
  | negZero : JsNum
  | int : Int → JsNum
deriving DecidableEq, Repr

/-- Primitive (non-reference) values. Symbols are identified by number. -/
inductive Prim where
  | undefined : Prim
  | null : Prim
  | bool : Bool → Prim
  | num : JsNum → Prim
  | str : String → Prim
  | sym : Nat → Prim
deriving DecidableEq, Repr

/-- A runtime value: a primitive, or a reference to a heap object. -/
inductive Val where
  | prim : Prim → Val
  | ref : Nat → Val
deriving DecidableEq, Repr

/-- Property key: string-keyed or symbol-keyed. -/
inductive Key where
  | str : String → Key
  | sym : Nat → Key
deriving DecidableEq, Repr

/-- A property is either a data property holding a value, or an accessor
holding optional getter/setter function identifiers. -/
inductive PropKind where
  | data : Val → PropKind
  | accessor : Option Nat → Option Nat → PropKind
deriving DecidableEq, Repr

/-- Own-property descriptor: enumerability flag plus data/accessor part. -/
structure PropAttr where
  enumerable : Bool
  kind : PropKind
deriving DecidableEq, Repr

/-- Kind-specific payload of a heap object (spec §3 DynamicValue):
plain record, sequence, map, set, temporal, pattern, error, callable,
byte buffer, resource.  Error objects carry `name`, `message` (itself a
value: the tests assign an Error object as a message) and `stack`. -/
inductive ObjData where
  | plain : ObjData
  | array : List Val → ObjData
  | mapData : List (Val × Val) → ObjData
  | setData : List Val → ObjData
  | date : Int → ObjData
  | regexp : String → String → ObjData
  | errObj : String → Val → Val → ObjData
  | funcObj : Nat → ObjData
  | buffer : List Nat → ObjData
  | urlObj : String → ObjData
deriving DecidableEq, Repr

/-- Heap object: payload, identity-kind tag (`species`, 0 = the base
built-in kind; nonzero = a subclass prototype), and the ordered list of
own extra properties. -/
structure Obj where
  data : ObjData
  species : Nat
  props : List (Key × PropAttr)
deriving DecidableEq, Repr

/-- The heap: objects addressed by position. -/
structure Store where
  objs : List Obj
deriving DecidableEq, Repr

def Store.get? (S : Store) (a : Nat) : Option Obj :=
  S.objs.get? a

def Store.push (S : Store) (o : Obj) : Store :=
  ⟨S.objs ++ [o]⟩

def Store.setObj (S : Store) (a : Nat) (o : Obj) : Store :=
  ⟨S.objs.set a o⟩

/-- Classifier kinds (spec §4.1). -/
inductive Kind where
  | record : Kind
  | sequence : Kind
  | mapLike : Kind
  | setLike : Kind
  | temporal : Kind
  | pattern : Kind
  | errorKind : Kind
  | callable : Kind
  | byteBuffer : Kind
  | resource : Kind
deriving DecidableEq, Repr

/-- Shape kind of an object payload (spec §4.1 Value Classifier). -/
def ObjData.kind : ObjData → Kind
  | .plain => .record
  | .array _ => .sequence
  | .mapData _ => .mapLike
  | .setData _ => .setLike
  | .date _ => .temporal
  | .regexp _ _ => .pattern
  | .errObj _ _ _ => .errorKind
  | .funcObj _ => .callable
  | .buffer _ => .byteBuffer
  | .urlObj _ => .resource

/-- JavaScript `===` on primitives: `NaN` is not equal to anything
(including itself) and `-0 === +0` holds. -/
def strictEqPrim : Prim → Prim → Bool
  | .num .nan, _ => false
  | _, .num .nan => false
  | .num .negZero, .num (.int 0) => true
  | .num (.int 0), .num .negZero => true
  | p, q => decide (p = q)

/-- JavaScript `===` on values: references compare by address. -/
def strictEqV : Val → Val → Bool
  | .prim p, .prim q => strictEqPrim p q
  | .ref a, .ref b => decide (a = b)
  | _, _ => false

/-- SameValueZero on primitives (used by Map/Set key identity):
`NaN` equals `NaN`, and `-0` equals `+0`. -/
def svzPrim : Prim → Prim → Bool
  | .num .negZero, .num (.int 0) => true
  | .num (.int 0), .num .negZero => true
  | p, q => decide (p = q)

/-- SameValueZero on values. -/
def svzV : Val → Val → Bool
  | .prim p, .prim q => svzPrim p q
  | .ref a, .ref b => decide (a = b)
  | _, _ => false

/-- JavaScript truthiness test for the falsy values. -/
def falsy : Val → Bool
  | .prim .undefined => true
  | .prim .null => true
  | .prim (.bool false) => true
  | .prim (.num .nan) => true
  | .prim (.num .negZero) => true
  | .prim (.num (.int 0)) => true
  | .prim (.str "") => true
  | _ => false

/-- Pure getter environment: resolves a getter identifier to the value
the getter currently returns. -/
def GetterEnv : Type := Nat → Val

/-- Reading a property's value (`obj[key]`): data properties yield their
value, accessors invoke the getter through the environment, a setter-only
accessor reads as `undefined`. -/
def readAttr (genv : GetterEnv) : PropAttr → Val
  | ⟨_, .data v⟩ => v
  | ⟨_, .accessor (some g) _⟩ => genv g
  | ⟨_, .accessor none _⟩ => .prim .undefined

/-- Own-property lookup by key. -/
def getProp (ps : List (Key × PropAttr)) (k : Key) : Option PropAttr :=
  match ps.find? (fun kp => decide (kp.1 = k)) with
  | some kp => some kp.2
  | none => none

/-- `obj[key]` over a property list (missing reads as `undefined`). -/
def readOwn (genv : GetterEnv) (ps : List (Key × PropAttr)) (k : Key) : Val :=
  match getProp ps k with
  | some attr => readAttr genv attr
  | none => .prim .undefined

/-- Options of the equality engine (spec §4.4). -/
structure EqOptions where
  proto : Bool := true
  symbols : Bool := true
  skip : List Key := []
  deepFunction : Bool := false
deriving DecidableEq, Repr

/-- Is this key considered by the generic own-property comparison?
String keys always (unless skipped); symbol keys only when the
`symbols` option is on (spec §4.4 step 4). -/
def keyIncluded (o : EqOptions) : Key → Bool
  | .str s => !(o.skip.contains (Key.str s))
  | .sym i => o.symbols && !(o.skip.contains (Key.sym i))

/-- The keys a side contributes to the generic own-property comparison:
own enumerable properties whose key is considered. -/
def consideredKeys (o : EqOptions) (ps : List (Key × PropAttr)) : List Key :=
  (ps.filter (fun kp => kp.2.enumerable && keyIncluded o kp.1)).map (fun kp => kp.1)

/-- Generic own-property comparison (spec §4.4 step 4, tail step): the
two filtered key sets must be identical, and each property's value (read
through getters) must satisfy the value comparison `f`. -/
def eqProps (genv : GetterEnv) (o : EqOptions) (f : Val → Val → Bool)
    (ps1 ps2 : List (Key × PropAttr)) : Bool :=
  let ks1 := consideredKeys o ps1
  let ks2 := consideredKeys o ps2
  ks1.all (fun k => decide (k ∈ ks2)) &&
  ks2.all (fun k => decide (k ∈ ks1)) &&
  ks1.all (fun k => f (readOwn genv ps1 k) (readOwn genv ps2 k))

/-- Remove the first element SameValueZero-identical to `x`
(`Set.prototype.delete`). -/
def svzDelete (x : Val) : List Val → Option (List Val)
  | [] => none
  | y :: ys =>
    if svzV x y then some ys
    else match svzDelete x ys with
      | some ys2 => some (y :: ys2)
      | none => none

/-- Remove the first element satisfying the comparison `f`. -/
def eqDelete (f : Val → Bool) : List Val → Option (List Val)
  | [] => none
  | y :: ys =>
    if f y then some ys
    else match eqDelete f ys with
      | some ys2 => some (y :: ys2)
      | none => none

/-- Duplicate-aware multiset matching for Set equality: each left
element first tries to consume an identical (SameValueZero) right
element, then the first deeply-equal right element (spec §4.4 SetLike,
mirroring the engine's fallback loop). -/
def greedySetMatch (f : Val → Val → Bool) : List Val → List Val → Bool
  | [], [] => true
  | [], _ :: _ => false
  | x :: xs, rs =>
    match svzDelete x rs with
    | some rs2 => greedySetMatch f xs rs2
    | none =>
      match eqDelete (f x) rs with
      | some rs2 => greedySetMatch f xs rs2
      | none => false

/-- `Map.prototype.get`: look a key up by SameValueZero. -/
def svzGet (entries : List (Val × Val)) (k : Val) : Option Val :=
  match entries.find? (fun e => svzV e.1 k) with
  | some e => some e.2
  | none => none

/-- Map content equality: sizes match and every left entry's key is
present on the right (SameValueZero) with a deeply-equal value.  A key
missing on the right always fails: the engine compares the left value
against `undefined` after its explicit undefined-and-missing guard, and
both paths reject. -/
def eqMapEntries (f : Val → Val → Bool) (l r : List (Val × Val)) : Bool :=
  decide (l.length = r.length) &&
  l.all (fun e =>
    match svzGet r e.1 with
    | some w => f e.2 w
    | none => false)

/-- The equality engine (spec §4.4), fueled.  Per-node order: identity
short-circuit; primitive/mixed rejection; shape-kind check and (under
strict `proto`) identity-kind check; content comparison for leaf kinds
(temporal, pattern, buffer, resource); cycle check against the
visited-pair list; recursive comparison for the structured kinds.
Error values compare `name` and compare `message` with `===`, then fall
through to the generic own-property comparison; `stack` is not an own
extra property and is never compared (test "cloned Error handles late
stack update"). -/
def deepEq (genv : GetterEnv) (S : Store) (o : EqOptions) :
    Nat → List (Nat × Nat) → Val → Val → Bool
  | 0, _, _, _ => false
  | fuel+1, seen, v1, v2 =>
    if v1 = v2 then true
    else
      match v1, v2 with
      | .ref a1, .ref a2 =>
        (match S.get? a1, S.get? a2 with
        | some o1, some o2 =>
          if ¬(o1.data.kind = o2.data.kind) then false
          else if o.proto && ¬(o1.species = o2.species) then false
          else
            match o1.data, o2.data with
            | .date t1, .date t2 => decide (t1 = t2)
            | .regexp s1 f1, .regexp s2 f2 => decide (s1 = s2) && decide (f1 = f2)
            | .buffer b1, .buffer b2 => decide (b1 = b2)
            | .urlObj u1, .urlObj u2 => decide (u1 = u2)
            | .funcObj _, .funcObj _ =>
              if ¬o.deepFunction then false
              else if (a1, a2) ∈ seen then true
              else eqProps genv o (deepEq genv S o fuel ((a1, a2) :: seen)) o1.props o2.props
            | .array es1, .array es2 =>
              if (a1, a2) ∈ seen then true
              else
                decide (es1.length = es2.length) &&
                (es1.zip es2).all
                  (fun p => deepEq genv S o fuel ((a1, a2) :: seen) p.1 p.2)
            | .setData es1, .setData es2 =>
              if (a1, a2) ∈ seen then true
              else
                decide (es1.length = es2.length) &&
                (if es1.all (fun x => es2.any (fun y => svzV x y)) then true
                 else greedySetMatch (deepEq genv S o fuel ((a1, a2) :: seen)) es1 es2) &&
                eqProps genv o (deepEq genv S o fuel ((a1, a2) :: seen)) o1.props o2.props
            | .mapData en1, .mapData en2 =>
              if (a1, a2) ∈ seen then true
              else
                eqMapEntries (deepEq genv S o fuel ((a1, a2) :: seen)) en1 en2 &&
                eqProps genv o (deepEq genv S o fuel ((a1, a2) :: seen)) o1.props o2.props
            | .errObj n1 m1 _, .errObj n2 m2 _ =>
              if ¬(n1 = n2) then false
              else if ¬(strictEqV m1 m2) then false
              else if (a1, a2) ∈ seen then true
              else eqProps genv o (deepEq genv S o fuel ((a1, a2) :: seen)) o1.props o2.props
            | .plain, .plain =>
              if (a1, a2) ∈ seen then true
              else eqProps genv o (deepEq genv S o fuel ((a1, a2) :: seen)) o1.props o2.props
            | _, _ => false
        | _, _ => false)
      | _, _ => false

/-- Top-level equality.  The fuel bound `|S|² + 2` dominates the longest
possible chain of distinct visited pairs, so it never runs out on any
value graph held in `S`. -/
def deepEqual (genv : GetterEnv) (S : Store) (v1 v2 : Val) (o : EqOptions) : Bool :=
  deepEq genv S o (S.objs.length * S.objs.length + 2) [] v1 v2

/-- Options of the clone engine (spec §4.3).  `shallow` is the list of
property paths copied by reference (the dot-string shorthand of the
source arrives here already split into key segments); the boolean
`shallow: true` whole-object mode is not exercised by any claim and is
not modelled. -/
structure CloneOptions where
  shallow : List (List Key) := []
  symbols : Bool := true
  proto : Bool := true
deriving DecidableEq, Repr

/-- Clone-engine state: the growing heap plus the cycle tracker's
association list from source addresses to their (possibly still
in-progress) clone addresses (spec §4.2). -/
structure CSt where
  store : Store
  seen : List (Nat × Nat)
deriving Repr

def lookupSeen (seen : List (Nat × Nat)) (a : Nat) : Option Nat :=
  match seen.find? (fun p => decide (p.1 = a)) with
  | some p => some p.2
  | none => none

def isSymKey : Key → Bool
  | .sym _ => true
  | .str _ => false

/-- Generic property pass of the clone engine (spec §4.3 step 3),
parametrised by the per-value recursive call `cf`.  The key literally
named `__proto__` is silently skipped; symbol keys are skipped when the
`symbols` option is off; accessor properties are copied as descriptors
verbatim, without invoking the getter (test "clones an object with
property getter without executing it"); data properties whose path is in
the shallow list keep the source value by reference; other data values
recurse.  Enumerability is preserved, order is preserved. -/
def cloneProps (symbols : Bool) (isShallow : Key → Bool)
    (cf : CSt → Key → Val → CSt × Val) :
    CSt → List (Key × PropAttr) → CSt × List (Key × PropAttr)
  | st, [] => (st, [])
  | st, (k, attr) :: rest =>
    if k = Key.str "__proto__" then cloneProps symbols isShallow cf st rest
    else if isSymKey k && !symbols then cloneProps symbols isShallow cf st rest
    else
      match attr.kind with
      | .accessor _ _ =>
        let r := cloneProps symbols isShallow cf st rest
        (r.1, (k, attr) :: r.2)
      | .data v =>
        if isShallow k then
          let r := cloneProps symbols isShallow cf st rest
          (r.1, (k, attr) :: r.2)
        else
          let rv := cf st k v
          let r := cloneProps symbols isShallow cf rv.1 rest
          (r.1, (k, ⟨attr.enumerable, .data rv.2⟩) :: r.2)

/-- Clone a list of element values (sequence elements, set elements). -/
def cloneVals (cf : CSt → Val → CSt × Val) : CSt → List Val → CSt × List Val
  | st, [] => (st, [])
  | st, v :: rest =>
    let rv := cf st v
    let r := cloneVals cf rv.1 rest
    (r.1, rv.2 :: r.2)

/-- Clone the value of each map entry; keys are kept by reference
(test "clones Map containing objects as keys (passed by reference)"). -/
def cloneEntries (cf : CSt → Val → CSt × Val) :
    CSt → List (Val × Val) → CSt × List (Val × Val)
  | st, [] => (st, [])
  | st, (k, v) :: rest =>
    let rv := cf st v
    let r := cloneEntries cf rv.1 rest
    (r.1, (k, rv.2) :: r.2)

/-- The clone engine (spec §4.3), fueled.  Per node: primitives are
returned as-is; an already-visited source address resolves to its
registered clone; callables are returned as the same reference; every
other composite registers `source ↦ fresh address` in the tracker
*before* recursing into children (spec §4.2), then writes the finished
object at the reserved address.  Temporal/pattern/buffer/resource nodes
are rebuilt from their content; Error nodes recursively clone `message`,
snapshot `stack`, and run the property pass for extra own properties. -/
def cloneV (opts : CloneOptions) : Nat → CSt → List Key → Val → CSt × Val
  | 0, st, _, v => (st, v)
  | fuel+1, st, path, v =>
    match v with
    | .prim _ => (st, v)
    | .ref a =>
      match lookupSeen st.seen a with
      | some d => (st, .ref d)
      | none =>
        match st.store.get? a with
        | none => (st, v)
        | some o =>
          let dst := st.store.objs.length
          let st1 : CSt := ⟨st.store.push ⟨.plain, 0, []⟩, (a, dst) :: st.seen⟩
          let sp := if opts.proto then o.species else 0
          let cf := fun st2 (k : Key) v2 => cloneV opts fuel st2 (path ++ [k]) v2
          let ce := fun st2 v2 => cloneV opts fuel st2 path v2
          let isSh := fun (k : Key) => (path ++ [k]) ∈ opts.shallow
          match o.data with
          | .funcObj _ => (st, v)
          | .date t =>
            (⟨st1.store.setObj dst ⟨.date t, sp, []⟩, st1.seen⟩, .ref dst)
          | .regexp src flg =>
            (⟨st1.store.setObj dst ⟨.regexp src flg, sp, []⟩, st1.seen⟩, .ref dst)
          | .buffer bs =>
            (⟨st1.store.setObj dst ⟨.buffer bs, sp, []⟩, st1.seen⟩, .ref dst)
          | .urlObj u =>
            (⟨st1.store.setObj dst ⟨.urlObj u, sp, []⟩, st1.seen⟩, .ref dst)
          | .errObj nm msg stk =>
            let rm := cloneV opts fuel st1 path msg
            let r := cloneProps opts.symbols isSh cf rm.1 o.props
            (⟨r.1.store.setObj dst ⟨.errObj nm rm.2 stk, sp, r.2⟩, r.1.seen⟩, .ref dst)
          | .array es =>
            let re := cloneVals ce st1 es
            let r := cloneProps opts.symbols isSh cf re.1 o.props
            (⟨r.1.store.setObj dst ⟨.array re.2, sp, r.2⟩, r.1.seen⟩, .ref dst)
          | .setData es =>
            let re := cloneVals ce st1 es
            let r := cloneProps opts.symbols isSh cf re.1 o.props
            (⟨r.1.store.setObj dst ⟨.setData re.2, sp, r.2⟩, r.1.seen⟩, .ref dst)
          | .mapData en =>
            let re := cloneEntries ce st1 en
            let r := cloneProps opts.symbols isSh cf re.1 o.props
            (⟨r.1.store.setObj dst ⟨.mapData re.2, sp, r.2⟩, r.1.seen⟩, .ref dst)
          | .plain =>
            let r := cloneProps opts.symbols isSh cf st1 o.props
            (⟨r.1.store.setObj dst ⟨.plain, sp, r.2⟩, r.1.seen⟩, .ref dst)

/-- Top-level clone.  The fuel `|S| + 1` covers the deepest possible
recursion: along one path every composite registers a distinct source
address before descending, so at most `|S|` levels precede a leaf or a
tracker hit. -/
def clone (S : Store) (v : Val) (opts : CloneOptions) : Store × Val :=
  let r := cloneV opts (S.objs.length + 1) ⟨S, []⟩ [] v
  (r.1.store, r.2)

/-- Options of `merge` (spec §6). -/
structure MergeOptions where
  nullOverride : Bool := true
  mergeArrays : Bool := true
  symbols : Bool := true
deriving DecidableEq, Repr

/-- Replace the value of an existing key in place, or append the key. -/
def upsertProp : List (Key × PropAttr) → Key → PropAttr → List (Key × PropAttr)
  | [], k, attr => [(k, attr)]
  | (k1, a1) :: rest, k, attr =>
    if k1 = k then (k1, attr) :: rest
    else (k1, a1) :: upsertProp rest k attr

/-- `typeof v === 'object' && v !== null`: a reference to a non-callable
heap object. -/
def isObjRef (S : Store) : Val → Bool
  | .ref a =>
    match S.get? a with
    | some o =>
      match o.data with
      | .funcObj _ => false
      | _ => true
    | none => false
  | .prim _ => false

/-- May `merge` recurse into this target/source payload pair?  Only
record-onto-record and sequence-onto-sequence; any other combination is
replaced wholesale by a deep clone of the source value (spec §6:
"array/object mismatch: source wins wholesale"). -/
def mergeRecPair : ObjData → ObjData → Bool
  | .plain, .plain => true
  | .array _, .array _ => true
  | _, _ => false

def targetProps (S : Store) (t : Nat) : List (Key × PropAttr) :=
  match S.get? t with
  | some o => o.props
  | none => []

/-- `target[key] = value` as a plain enumerable data property. -/
def assignProp (S : Store) (t : Nat) (k : Key) (v : Val) : Store :=
  match S.get? t with
  | some o => S.setObj t ⟨o.data, o.species, upsertProp o.props k ⟨true, .data v⟩⟩
  | none => S

/-- The per-property loop of `merge` (spec §6): walks the source's own
enumerable properties (symbols only when enabled), silently skips the
key literally named `__proto__`, recurses when both sides hold a
mergeable composite, deep-clones the source value otherwise, and under
`nullOverride` (default on) lets `null`/`undefined` source values
overwrite; with it off they are ignored. -/
def mergeProps (genv : GetterEnv) (opts : MergeOptions)
    (rec : Store → Nat → Nat → Store)
    (cln : Store → Val → Store × Val) (t : Nat) :
    Store → List (Key × PropAttr) → Store
  | S, [] => S
  | S, (k, attr) :: rest =>
    if k = Key.str "__proto__" then mergeProps genv opts rec cln t S rest
    else if !attr.enumerable then mergeProps genv opts rec cln t S rest
    else if isSymKey k && !opts.symbols then mergeProps genv opts rec cln t S rest
    else
      let v := readAttr genv attr
      let S2 :=
        match v with
        | .ref r =>
          match S.get? r with
          | none => assignProp S t k v
          | some ro =>
            match ro.data with
            | .funcObj _ => assignProp S t k v
            | _ =>
              match readOwn genv (targetProps S t) k with
              | .ref tr =>
                match S.get? tr with
                | some tobj =>
                  if mergeRecPair tobj.data ro.data then rec S tr r
                  else
                    let rc := cln S v
                    assignProp rc.1 t k rc.2
                | none =>
                  let rc := cln S v
                  assignProp rc.1 t k rc.2
              | .prim _ =>
                let rc := cln S v
                assignProp rc.1 t k rc.2
        | .prim .null => if opts.nullOverride then assignProp S t k v else S
        | .prim .undefined => if opts.nullOverride then assignProp S t k v else S
        | .prim _ => assignProp S t k v
      mergeProps genv opts rec cln t S2 rest

/-- Recursive core of `merge`, fueled (the engine itself recurses
unboundedly; the fuel is adequate for any acyclic input).  Merging a
sequence onto a sequence appends deep clones of the source elements
(or replaces the elements wholesale when `mergeArrays` is off); any
other pair runs the per-property loop. -/
def mergeInto (genv : GetterEnv) (opts : MergeOptions) :
    Nat → Store → Nat → Nat → Store
  | 0, S, _, _ => S
  | fuel+1, S, t, s =>
    match S.get? t, S.get? s with
    | some tobj, some sobj =>
      match tobj.data, sobj.data with
      | .array tes, .array ses =>
        let base := if opts.mergeArrays then tes else []
        let r := ses.foldl
          (fun (acc : Store × List Val) e =>
            let rc := clone acc.1 e { symbols := opts.symbols }
            (rc.1, acc.2 ++ [rc.2]))
          (S, base)
        r.1.setObj t ⟨.array r.2, tobj.species, tobj.props⟩
      | _, _ =>
        mergeProps genv opts (mergeInto genv opts fuel)
          (fun S2 v => clone S2 v { symbols := opts.symbols }) t S sobj.props
    | _, _ => S

/-- `merge(target, source, options)` (spec §6): mutates `target` in
place and returns it; validates that `target` is an object, that
`source` is null, undefined or an object, and that an array source only
merges onto an array target. -/
def merge (genv : GetterEnv) (S : Store) (target source : Val)
    (opts : MergeOptions) : Except String (Store × Val) :=
  match target with
  | .ref t =>
    match S.get? t with
    | some tobj =>
      match tobj.data with
      | .funcObj _ => .error "Invalid target value: must be an object"
      | _ =>
        match source with
        | .prim .null => .ok (S, target)
        | .prim .undefined => .ok (S, target)
        | .ref s =>
          match S.get? s with
          | some sobj =>
            match sobj.data with
            | .funcObj _ =>
              .error "Invalid source value: must be null, undefined, or an object"
            | .array _ =>
              match tobj.data with
              | .array _ =>
                .ok (mergeInto genv opts (S.objs.length + 1) S t s, target)
              | _ => .error "Cannot merge array onto an object"
            | _ => .ok (mergeInto genv opts (S.objs.length + 1) S t s, target)
          | none => .error "Invalid source value: must be null, undefined, or an object"
        | .prim _ =>
          .error "Invalid source value: must be null, undefined, or an object"
    | none => .error "Invalid target value: must be an object"
  | .prim _ => .error "Invalid target value: must be an object"

/-- Options accepted by `applyToDefaults` (spec §6).  `nullOverride`
left unset defaults to off: a `null` in the source does not override a
default (test "applies object to defaults"). -/
structure ApplyOptions where
  nullOverride : Option Bool := none
  shallow : List (List Key) := []
deriving DecidableEq, Repr

/-- The dynamically-typed third argument of `applyToDefaults`: absent,
a decoded options object, or any non-object value (which the entry
point rejects). -/
inductive OptionsArg where
  | absent : OptionsArg
  | given : ApplyOptions → OptionsArg
  | notObject : OptionsArg
deriving DecidableEq, Repr

/-- Follow a property path from a value (the spec's path reach). -/
def reachPath (genv : GetterEnv) (S : Store) : Val → List Key → Option Val
  | v, [] => some v
  | .ref a, k :: ks =>
    match S.get? a with
    | some o =>
      match getProp o.props k with
      | some attr => reachPath genv S (readAttr genv attr) ks
      | none => none
    | none => none
  | .prim _, _ :: _ => none

/-- Write a raw data value at a property path (used for shallow-path
overrides: the source reference is assigned without recursing). -/
def setPath (genv : GetterEnv) (S : Store) : Val → List Key → Val → Store
  | _, [], _ => S
  | .ref a, [k], w =>
    match S.get? a with
    | some o => S.setObj a ⟨o.data, o.species, upsertProp o.props k ⟨true, .data w⟩⟩
    | none => S
  | .ref a, k :: k2 :: ks, w =>
    match S.get? a with
    | some o =>
      match getProp o.props k with
      | some attr => setPath genv S (readAttr genv attr) (k2 :: ks) w
      | none => S
    | none => S
  | .prim _, _ :: _, _ => S

/-- Shallow-path pass of `applyToDefaults` (spec §6): each listed path
is copied by reference from the source, or from the original defaults
when the source does not define it. -/
def applyShallow (genv : GetterEnv) (result defaults source : Val) :
    Store → List (List Key) → Store
  | S, [] => S
  | S, p :: rest =>
    let S2 :=
      match reachPath genv S source p with
      | some sv => setPath genv S result p sv
      | none =>
        match reachPath genv S defaults p with
        | some dv => setPath genv S result p dv
        | none => S
    applyShallow genv result defaults source S2 rest

/-- `applyToDefaults(defaults, source, options)` (spec §6): validates
`defaults` (object), `source` (true, falsy or object) and `options`
(object when present); `source === true` returns a clone of the
defaults, a falsy source returns `null`, and an object source is merged
onto a clone of the defaults with `nullOverride` defaulting to off and
`mergeArrays` off, followed by the shallow-path pass. -/
def applyToDefaults (genv : GetterEnv) (S : Store) (defaults source : Val)
    (optsArg : OptionsArg) : Except String (Store × Val) :=
  if !isObjRef S defaults then .error "Invalid defaults value: must be an object"
  else if !(decide (source = .prim (.bool true)) || falsy source || isObjRef S source) then
    .error "Invalid source value: must be true, falsy or an object"
  else
    match optsArg with
    | .notObject => .error "Invalid options: must be an object"
    | arg =>
      let opts : ApplyOptions :=
        match arg with
        | .given o => o
        | _ => {}
      if source = .prim (.bool true) then .ok (clone S defaults {})
      else if falsy source then .ok (S, .prim .null)
      else
        let rc := clone S defaults {}
        match rc.2, source with
        | .ref ct, .ref s =>
          let S2 := mergeInto genv
            { nullOverride := opts.nullOverride.getD false, mergeArrays := false }
            (rc.1.objs.length + 1) rc.1 ct s
          let S3 := applyShallow genv rc.2 defaults source S2 opts.shallow
          .ok (S3, rc.2)
        | _, _ => .ok rc

/-! ## Concrete scenario data used by witnesses and counterexamples -/

/-- Getter environment used by the concrete scenarios (no getter is
consulted by any of them unless stated). -/
def genv0 : GetterEnv := fun _ => Val.prim .undefined

/-- Enumerable data property. -/
def dprop (v : Val) : PropAttr := ⟨true, .data v⟩

def vint (i : Int) : Val := .prim (.num (.int i))

def vstr (s : String) : Val := .prim (.str s)

/-- Positive zero. -/
def vz : Val := .prim (.num (.int 0))

/-- Negative zero. -/
def vnz : Val := .prim (.num .negZero)

/-- Heap for the signed-zero scenarios: two singleton sets `{+0}` and
`{-0}` and two singleton maps keyed by `+0` and `-0`. -/
def S10 : Store := ⟨[
  ⟨.setData [vz], 0, []⟩,
  ⟨.setData [vnz], 0, []⟩,
  ⟨.mapData [(vz, vstr "a")], 0, []⟩,
  ⟨.mapData [(vnz, vstr "a")], 0, []⟩]⟩

/-- Heap with a 1-cycle `a.x = a` (address 0), a 2-cycle `b.x.x = b`
(addresses 1, 2) and a 3-cycle `c.x.x.x = c` (addresses 3, 4, 5), after
the test "handles irregular circular dependency". -/
def S2 : Store := ⟨[
  ⟨.plain, 0, [(.str "x", dprop (.ref 0))]⟩,
  ⟨.plain, 0, [(.str "x", dprop (.ref 2))]⟩,
  ⟨.plain, 0, [(.str "x", dprop (.ref 1))]⟩,
  ⟨.plain, 0, [(.str "x", dprop (.ref 4))]⟩,
  ⟨.plain, 0, [(.str "x", dprop (.ref 5))]⟩,
  ⟨.plain, 0, [(.str "x", dprop (.ref 3))]⟩]⟩

/-- `S2` after mutating the 2-cycle side: `b.x.y = 1`. -/
def S2m : Store := ⟨[
  ⟨.plain, 0, [(.str "x", dprop (.ref 0))]⟩,
  ⟨.plain, 0, [(.str "x", dprop (.ref 2))]⟩,
  ⟨.plain, 0, [(.str "x", dprop (.ref 1)), (.str "y", dprop (vint 1))]⟩,
  ⟨.plain, 0, [(.str "x", dprop (.ref 4))]⟩,
  ⟨.plain, 0, [(.str "x", dprop (.ref 5))]⟩,
  ⟨.plain, 0, [(.str "x", dprop (.ref 3))]⟩]⟩

/-- `S2` after mutating the 1-cycle side instead: `a.y = 1`. -/
def S2am : Store := ⟨[
  ⟨.plain, 0, [(.str "x", dprop (.ref 0)), (.str "y", dprop (vint 1))]⟩,
  ⟨.plain, 0, [(.str "x", dprop (.ref 2))]⟩,
  ⟨.plain, 0, [(.str "x", dprop (.ref 1))]⟩,
  ⟨.plain, 0, [(.str "x", dprop (.ref 4))]⟩,
  ⟨.plain, 0, [(.str "x", dprop (.ref 5))]⟩,
  ⟨.plain, 0, [(.str "x", dprop (.ref 3))]⟩]⟩

/-- Heap after the test "handles cross circular dependency":
`a = {x: b, y: a}` (address 0), `b = {x: bx, y: a}` (address 1),
`bx = {x: b, y: bx}` (address 2). -/
def S2c : Store := ⟨[
  ⟨.plain, 0, [(.str "x", dprop (.ref 1)), (.str "y", dprop (.ref 0))]⟩,
  ⟨.plain, 0, [(.str "x", dprop (.ref 2)), (.str "y", dprop (.ref 0))]⟩,
  ⟨.plain, 0, [(.str "x", dprop (.ref 1)), (.str "y", dprop (.ref 2))]⟩]⟩

/-- `S2c` after mutating `b.x.y = 1`. -/
def S2cm : Store := ⟨[
  ⟨.plain, 0, [(.str "x", dprop (.ref 1)), (.str "y", dprop (.ref 0))]⟩,
  ⟨.plain, 0, [(.str "x", dprop (.ref 2)), (.str "y", dprop (.ref 0))]⟩,
  ⟨.plain, 0, [(.str "x", dprop (.ref 1)), (.str "y", dprop (vint 1))]⟩]⟩

/-- Two Error values identical except for their `stack` text, after the
test "cloned Error handles late stack update". -/
def SE4 : Store := ⟨[
  ⟨.errObj "Error" (vstr "bad") (vstr "stack1"), 0, []⟩,
  ⟨.errObj "Error" (vstr "bad") (vstr "late update"), 0, []⟩]⟩

/-- Two Error values whose messages are two distinct but structurally
equal empty records (addresses 0 and 1). -/
def SE5 : Store := ⟨[
  ⟨.plain, 0, []⟩,
  ⟨.plain, 0, []⟩,
  ⟨.errObj "Error" (.ref 0) (vstr "s"), 0, []⟩,
  ⟨.errObj "Error" (.ref 1) (vstr "s"), 0, []⟩]⟩

/-- An object whose only own property is an enumerable getter-only
accessor (getter identifier 0), after the test "clones an object with
property getter without executing it". -/
def S3g : Store := ⟨[⟨.plain, 0, [(.str "test", ⟨true, .accessor (some 0) none⟩)]⟩]⟩

/-- A Map holding an object value and an object key, after the tests
"clones Map containing objects as values/keys". -/
def S6m : Store := ⟨[
  ⟨.plain, 0, [(.str "k", dprop (vint 1))]⟩,
  ⟨.mapData [(vstr "a", vint 1), (.ref 0, vint 3), (vstr "c", .ref 0)], 0, []⟩]⟩

/-- `{x: 1}` (address 0) and `{x: null}` (address 1). -/
def S7n : Store := ⟨[
  ⟨.plain, 0, [(.str "x", dprop (vint 1))]⟩,
  ⟨.plain, 0, [(.str "x", dprop (.prim .null))]⟩]⟩

/-- The `x` property of the result of merging `{x: null}` onto
`{x: 1}` under the given options. -/
def mergeNullX (o : MergeOptions) : Option Val :=
  match merge genv0 S7n (.ref 0) (.ref 1) o with
  | .ok r => some (readOwn genv0 (targetProps r.1 0) (.str "x"))
  | .error _ => none

/-- The `x` property of the result of `applyToDefaults({x:1}, {x:null})`
under the given options argument (the result lives at address 2). -/
def applyNullX (arg : OptionsArg) : Option Val :=
  match applyToDefaults genv0 S7n (.ref 0) (.ref 1) arg with
  | .ok r => some (readOwn genv0 (targetProps r.1 2) (.str "x"))
  | .error _ => none

/-- A parsed object carrying an own key literally named `__proto__`
(after `JSON.parse('{ "ok": "value", "__proto__": { "test": "value" } }')`),
plus an empty record to merge onto. -/
def S9p : Store := ⟨[
  ⟨.plain, 0, [(.str "ok", dprop (vstr "value")), (.str "__proto__", dprop (.ref 1))]⟩,
  ⟨.plain, 0, [(.str "test", dprop (vstr "value"))]⟩,
  ⟨.plain, 0, []⟩]⟩

/-- An Error whose `message` is a composite value (an empty record),
the failing input of the round-trip property. -/
def SE1 : Store := ⟨[
  ⟨.errObj "Error" (.ref 1) (vstr "s"), 0, []⟩,
  ⟨.plain, 0, []⟩]⟩

/-- Store extension: the second heap is at least as long and agrees
with the first on every address the first defines.  Every clone-engine
step only appends fresh objects and writes at addresses it allocated
itself, so it extends its input store. -/
def SExt (S S2 : Store) : Prop :=
  S.objs.length ≤ S2.objs.length ∧
  ∀ x, x < S.objs.length → S2.get? x = S.get? x

/-- No own property named `__proto__` in a property list. -/
def noProtoProps (ps : List (Key × PropAttr)) : Prop :=
  ∀ attr, (Key.str "__proto__", attr) ∉ ps

/-- Address `x` holds a plain record of species `sp` with no own
`__proto__` key. -/
def plainNoProto (S : Store) (x sp : Nat) : Prop :=
  ∃ ps, S.get? x = some ⟨.plain, sp, ps⟩ ∧ noProtoProps ps

/-- Depth-bounded unfolding of a value over record graphs, used to state
that two (possibly cyclic) values have identical infinite unfoldings:
depth 0 is a stub, primitives are leaves, a plain record unfolds its
considered keys one level deeper, and any other object is kept opaque
by its identity.  Two values unfold identically at every depth exactly
when their infinite unfoldings coincide. -/
inductive RTree where
  | stub : RTree
  | leaf : Prim → RTree
  | other : Nat → RTree
  | node : Nat → List (Key × RTree) → RTree
deriving Repr

/-- Unfold a value to the given depth (default equality options decide
the considered keys). -/
def unfoldN (genv : GetterEnv) (S : Store) : Nat → Val → RTree
  | 0, _ => .stub
  | _+1, .prim p => .leaf p
  | n+1, .ref a =>
    match S.get? a with
    | some o =>
      match o.data with
      | .plain =>
        .node o.species
          ((consideredKeys {} o.props).map
            (fun k => (k, unfoldN genv S n (readOwn genv o.props k))))
      | _ => .other a
    | none => .other a

/-- The visited pairs still available to the equality engine over a
store of `L` objects: the engine registers a fresh in-range pair before
every structural recursion, so this quantity strictly decreases. -/
def seenBudget (L : Nat) (seen : List (Nat × Nat)) : Nat :=
  ((Finset.range L ×ˢ Finset.range L).filter (fun p => p ∉ seen)).card

/-- Pairwise SameValueZero-distinctness, the representation invariant
of Set elements and Map keys (a JavaScript Set/Map never holds two
SameValueZero-equal elements/keys). -/
def pairwiseNonSvz : List Val → Bool
  | [] => true
  | x :: xs => xs.all (fun y => !svzV x y) && pairwiseNonSvz xs

/-- Every data property value satisfies `ok` (accessors are copied as
descriptors and read identically on both sides, so they impose no
recursive condition). -/
def okProps (ok : Val → Bool) (ps : List (Key × PropAttr)) : Bool :=
  ps.all (fun kp =>
    match kp.2.kind with
    | .data v => ok v
    | .accessor _ _ => true)

/-- No own *enumerable* property named `__proto__` (such a key is
dropped by `clone` but seen by `deepEqual`, which would break the
round trip). -/
def cleanProps (ps : List (Key × PropAttr)) : Bool :=
  ps.all (fun kp => !(kp.2.enumerable && decide (kp.1 = Key.str "__proto__")))

/-- The `===`-reflexivity needed of an Error message for the round
trip: `deepEqual` compares messages with `===`, while `clone`
deep-copies them, so only primitive messages other than `NaN` survive
a clone-then-compare round trip. -/
def msgReflexive : Val → Bool
  | .prim p => strictEqPrim p p
  | .ref _ => false

/-- Fueled well-formedness of a value in a store: every reachable
reference resolves, the graph is acyclic within the fuel (a cycle
exhausts any fuel), Set elements and Map keys are pairwise
SameValueZero-distinct, no reachable record carries an own enumerable
`__proto__` key, and every reachable Error message is `===`-reflexive.
These are exactly the conditions under which the clone-then-compare
round trip holds. -/
def okV (S : Store) : Nat → Val → Bool
  | 0, .prim _ => true
  | 0, .ref _ => false
  | _+1, .prim _ => true
  | n+1, .ref a =>
    match S.get? a with
    | none => false
    | some o =>
      match o.data with
      | .funcObj _ => true
      | .plain => cleanProps o.props && okProps (okV S n) o.props
      | .date _ => true
      | .regexp _ _ => true
      | .buffer _ => true
      | .urlObj _ => true
      | .array es => okProps (okV S n) o.props && es.all (okV S n)
      | .setData es =>
        cleanProps o.props && okProps (okV S n) o.props &&
        pairwiseNonSvz es && es.all (okV S n)
      | .mapData en =>
        cleanProps o.props && okProps (okV S n) o.props &&
        pairwiseNonSvz (en.map Prod.fst) && en.all (fun e => okV S n e.2)
      | .errObj _ msg _ =>
        cleanProps o.props && okProps (okV S n) o.props && msgReflexive msg

/-- Acyclic well-formed value: a depth budget of one more than the
store size is complete, because an acyclic reference path visits
pairwise-distinct addresses. -/
def Acyclic (S : Store) (v : Val) : Prop :=
  okV S (S.objs.length + 1) v = true

/-- How the clone of a single value relates to its source through the
cycle tracker's association `σ`: primitives are copied verbatim,
callables keep their reference, and every other composite maps through
`σ`. -/
def valMapped (S : Store) (σ : List (Nat × Nat)) : Val → Val → Prop
  | .prim p, w => w = .prim p
  | .ref a, w =>
    match S.get? a with
    | some o =>
      match o.data with
      | .funcObj _ => w = .ref a
      | _ => ∃ d, w = .ref d ∧ lookupSeen σ a = some d
    | none => w = .ref a

/-- How a cloned property list relates to its source under default
clone options: `__proto__`-keyed entries are dropped, accessors are
copied verbatim, data values are mapped. -/
inductive PropsMapped (S : Store) (σ : List (Nat × Nat)) :
    List (Key × PropAttr) → List (Key × PropAttr) → Prop where
  | nil : PropsMapped S σ [] []
  | skipProto : ∀ attr ps ps2, PropsMapped S σ ps ps2 →
      PropsMapped S σ ((Key.str "__proto__", attr) :: ps) ps2
  | accessor : ∀ k en g st ps ps2, ¬(k = Key.str "__proto__") →
      PropsMapped S σ ps ps2 →
      PropsMapped S σ ((k, ⟨en, .accessor g st⟩) :: ps)
        ((k, ⟨en, .accessor g st⟩) :: ps2)
  | dataStep : ∀ k en v v2 ps ps2, ¬(k = Key.str "__proto__") →
      valMapped S σ v v2 → PropsMapped S σ ps ps2 →
      PropsMapped S σ ((k, ⟨en, .data v⟩) :: ps)
        ((k, ⟨en, .data v2⟩) :: ps2)

/-- How a cloned payload relates to its source: content of leaf kinds
is copied, sequence/set elements and map values are mapped pointwise,
map keys are kept by reference, Error name and stack are copied and
the message is mapped. -/
def dataMapped (S : Store) (σ : List (Nat × Nat)) : ObjData → ObjData → Prop
  | .plain, .plain => True
  | .array es, .array es2 => List.Forall₂ (valMapped S σ) es es2
  | .setData es, .setData es2 => List.Forall₂ (valMapped S σ) es es2
  | .mapData en, .mapData en2 =>
      List.Forall₂ (fun e e2 => e2.1 = e.1 ∧ valMapped S σ e.2 e2.2) en en2
  | .date t, .date t2 => t2 = t
  | .regexp src flg, .regexp src2 flg2 => src2 = src ∧ flg2 = flg
  | .buffer bs, .buffer bs2 => bs2 = bs
  | .urlObj u, .urlObj u2 => u2 = u
  | .errObj nm msg stk, .errObj nm2 msg2 stk2 =>
      nm2 = nm ∧ valMapped S σ msg msg2 ∧ stk2 = stk
  | _, _ => False

/-- Leaf payloads, rebuilt from content alone: the clone engine drops
their extra own properties and the equality engine never reads them. -/
def leafData : ObjData → Prop
  | .date _ => True
  | .regexp _ _ => True
  | .buffer _ => True
  | .urlObj _ => True
  | _ => False

/-- An association pair is realised: the clone-side object exists and
is the faithful image of the source-side object (for leaf kinds only
the content is carried over). -/
def objMapped (S T : Store) (σ : List (Nat × Nat)) (s d : Nat) : Prop :=
  ∃ o o2, S.get? s = some o ∧ T.get? d = some o2 ∧
    o2.species = o.species ∧ dataMapped S σ o.data o2.data ∧
    (leafData o.data ∨ PropsMapped S σ o.props o2.props)

/-- `σ2` answers every lookup `σ` answers, with the same result. -/
def SeenLE (σ σ2 : List (Nat × Nat)) : Prop :=
  ∀ s d, lookupSeen σ s = some d → lookupSeen σ2 s = some d

def notFunc : ObjData → Prop
  | .funcObj _ => False
  | _ => True

/-- Clone-engine invariant over the source store `S`, with `P` the
in-progress (pending) association pairs of the enclosing calls. -/
def cinv (S : Store) (P : List (Nat × Nat)) (st : CSt) : Prop :=
  S.objs.length ≤ st.store.objs.length ∧
  (∀ x, x < S.objs.length → st.store.get? x = S.get? x) ∧
  (∀ p, p ∈ st.seen →
    p.1 < S.objs.length ∧ S.objs.length ≤ p.2 ∧ p.2 < st.store.objs.length ∧
    ∃ o, S.get? p.1 = some o ∧ notFunc o.data) ∧
  (st.seen.map Prod.snd).Nodup ∧
  (∀ p, p ∈ st.seen → p ∈ P ∨ objMapped S st.store st.seen p.1 p.2)

/-- The cycle tracker only grows, and its answers persist. -/
def seenExt (σ σ2 : List (Nat × Nat)) : Prop :=
  σ ⊆ σ2 ∧ SeenLE σ σ2

/-- The full per-call contract of the clone engine. -/
def cloneSpec (S : Store) (P : List (Nat × Nat)) (st : CSt)
    (r : CSt × Val) (v : Val) : Prop :=
  SExt st.store r.1.store ∧ seenExt st.seen r.1.seen ∧ cinv S P r.1 ∧
  valMapped S r.1.seen v r.2

/-- Pure structural acyclicity and lookup-validity of a value's
reference graph, with no cleanliness conditions: every reachable
reference resolves, and the graph has no reference cycle (a cycle
exhausts any fuel).  This is the claim's literal "acyclic value". -/
def acyclicV (S : Store) : Nat → Val → Bool
  | 0, .prim _ => true
  | 0, .ref _ => false
  | _+1, .prim _ => true
  | n+1, .ref a =>
    match S.get? a with
    | none => false
    | some o =>
      o.props.all (fun kp =>
        match kp.2.kind with
        | .data v => acyclicV S n v
        | .accessor _ _ => true) &&
      (match o.data with
      | .array es => es.all (acyclicV S n)
      | .setData es => es.all (acyclicV S n)
      | .mapData en => en.all (fun e => acyclicV S n e.1 && acyclicV S n e.2)
      | .errObj _ msg _ => acyclicV S n msg
      | _ => true)

/-! ## Lemmas and claim theorems -/

theorem Store.get?_push_lt (S : Store) (o : Obj) (x : Nat)
    (h : x < S.objs.length) : (S.push o).get? x = S.get? x := by
  simp [Store.push, Store.get?, List.getElem?_append_left, h]

theorem Store.get?_push_self (S : Store) (o : Obj) :
    (S.push o).get? S.objs.length = some o := by
  simp [Store.push, Store.get?, List.getElem?_concat_length]

theorem Store.get?_setObj_self (S : Store) (o : Obj) (a : Nat)
    (h : a < S.objs.length) : (S.setObj a o).get? a = some o := by
  simp [Store.setObj, Store.get?, List.getElem?_set_self, h]

theorem Store.get?_setObj_ne (S : Store) (o : Obj) (a x : Nat)
    (h : ¬(x = a)) : (S.setObj a o).get? x = S.get? x := by
  simp [Store.setObj, Store.get?]
  rw [List.getElem?_set_ne]
  omega

theorem Store.push_length (S : Store) (o : Obj) :
    (S.push o).objs.length = S.objs.length + 1 := by
  simp [Store.push]

theorem Store.setObj_length (S : Store) (o : Obj) (a : Nat) :
    (S.setObj a o).objs.length = S.objs.length := by
  simp [Store.setObj]

theorem SExt.refl (S : Store) : SExt S S := ⟨le_refl _, fun _ _ => rfl⟩

theorem SExt.trans {S1 S2 S3 : Store} (h1 : SExt S1 S2) (h2 : SExt S2 S3) :
    SExt S1 S3 := by
  refine ⟨le_trans h1.1 h2.1, fun x hx => ?_⟩
  rw [h2.2 x (lt_of_lt_of_le hx h1.1), h1.2 x hx]

theorem SExt.push (S : Store) (o : Obj) : SExt S (S.push o) := by
  refine ⟨by simp [Store.push_length], fun x hx => Store.get?_push_lt S o x hx⟩

/-- Writing at an address beyond the base store preserves extension. -/
theorem SExt.write {S S2 : Store} (h : SExt S S2) (a : Nat) (o : Obj)
    (ha : S.objs.length ≤ a) : SExt S (S2.setObj a o) := by
  refine ⟨by rw [Store.setObj_length]; exact h.1, fun x hx => ?_⟩
  rw [Store.get?_setObj_ne S2 o a x (by omega), h.2 x hx]

theorem cloneProps_ext (symbols : Bool) (isShallow : Key → Bool)
    (cf : CSt → Key → Val → CSt × Val)
    (hcf : ∀ st k v, SExt st.store (cf st k v).1.store) :
    ∀ (ps : List (Key × PropAttr)) (st : CSt),
      SExt st.store (cloneProps symbols isShallow cf st ps).1.store := by
  intro ps
  induction ps with
  | nil => intro st; exact SExt.refl _
  | cons kp rest ih =>
    intro st
    obtain ⟨k, attr⟩ := kp
    rw [cloneProps]
    by_cases h1 : k = Key.str "__proto__"
    · rw [if_pos h1]; exact ih st
    · rw [if_neg h1]
      by_cases h2 : (isSymKey k && !symbols) = true
      · rw [if_pos h2]; exact ih st
      · rw [if_neg h2]
        obtain ⟨en, pk⟩ := attr
        cases pk with
        | accessor g s => exact ih st
        | data v =>
          dsimp only
          by_cases h3 : isShallow k = true
          · rw [if_pos h3]; exact ih st
          · rw [if_neg h3]
            exact SExt.trans (hcf st k v) (ih _)

theorem cloneVals_ext (cf : CSt → Val → CSt × Val)
    (hcf : ∀ st v, SExt st.store (cf st v).1.store) :
    ∀ (es : List Val) (st : CSt),
      SExt st.store (cloneVals cf st es).1.store := by
  intro es
  induction es with
  | nil => intro st; exact SExt.refl _
  | cons v rest ih => intro st; exact SExt.trans (hcf st v) (ih _)

theorem cloneEntries_ext (cf : CSt → Val → CSt × Val)
    (hcf : ∀ st v, SExt st.store (cf st v).1.store) :
    ∀ (en : List (Val × Val)) (st : CSt),
      SExt st.store (cloneEntries cf st en).1.store := by
  intro en
  induction en with
  | nil => intro st; exact SExt.refl _
  | cons e rest ih =>
    intro st
    obtain ⟨k, v⟩ := e
    exact SExt.trans (hcf st v) (ih _)

theorem cloneV_ext (opts : CloneOptions) :
    ∀ (fuel : Nat) (st : CSt) (path : List Key) (v : Val),
      SExt st.store (cloneV opts fuel st path v).1.store := by
  intro fuel
  induction fuel with
  | zero => intro st path v; exact SExt.refl _
  | succ n ih =>
    intro st path v
    rw [cloneV.eq_def]
    cases v with
    | prim p => exact SExt.refl _
    | ref a =>
      cases hseen : lookupSeen st.seen a with
      | some d => simp only [hseen]; exact SExt.refl _
      | none =>
        simp only [hseen]
        cases hget : st.store.get? a with
        | none => simp only [hget]; exact SExt.refl _
        | some o =>
          simp only [hget]
          obtain ⟨od, sp, ps⟩ := o
          dsimp only
          have hprops := fun (ish : Key → Bool) (st2 : CSt) =>
            cloneProps_ext opts.symbols ish
              (fun st3 k v2 => cloneV opts n st3 (path ++ [k]) v2)
              (fun st3 k v2 => ih st3 (path ++ [k]) v2) ps st2
          have hvals := fun (es : List Val) (st2 : CSt) =>
            cloneVals_ext (fun st3 v2 => cloneV opts n st3 path v2)
              (fun st3 v2 => ih st3 path v2) es st2
          have hentries := fun (en : List (Val × Val)) (st2 : CSt) =>
            cloneEntries_ext (fun st3 v2 => cloneV opts n st3 path v2)
              (fun st3 v2 => ih st3 path v2) en st2
          cases od with
          | funcObj f => dsimp only; exact SExt.refl _
          | date t => dsimp only; exact SExt.write (SExt.push _ _) _ _ (le_refl _)
          | regexp s f => dsimp only; exact SExt.write (SExt.push _ _) _ _ (le_refl _)
          | buffer b => dsimp only; exact SExt.write (SExt.push _ _) _ _ (le_refl _)
          | urlObj u => dsimp only; exact SExt.write (SExt.push _ _) _ _ (le_refl _)
          | plain =>
            dsimp only
            exact SExt.write (SExt.trans (SExt.push _ _)
              (hprops _ ⟨st.store.push ⟨.plain, 0, []⟩,
                (a, st.store.objs.length) :: st.seen⟩)) _ _ (le_refl _)
          | errObj nm msg stk =>
            dsimp only
            exact SExt.write (SExt.trans (SExt.push _ _)
              (SExt.trans
                (ih ⟨st.store.push ⟨.plain, 0, []⟩,
                  (a, st.store.objs.length) :: st.seen⟩ path msg)
                (hprops _ (cloneV opts n ⟨st.store.push ⟨.plain, 0, []⟩,
                  (a, st.store.objs.length) :: st.seen⟩ path msg).1))) _ _ (le_refl _)
          | array es =>
            dsimp only
            exact SExt.write (SExt.trans (SExt.push _ _)
              (SExt.trans
                (hvals es ⟨st.store.push ⟨.plain, 0, []⟩,
                  (a, st.store.objs.length) :: st.seen⟩)
                (hprops _ (cloneVals (fun st3 v2 => cloneV opts n st3 path v2)
                  ⟨st.store.push ⟨.plain, 0, []⟩,
                    (a, st.store.objs.length) :: st.seen⟩ es).1))) _ _ (le_refl _)
          | setData es =>
            dsimp only
            exact SExt.write (SExt.trans (SExt.push _ _)
              (SExt.trans
                (hvals es ⟨st.store.push ⟨.plain, 0, []⟩,
                  (a, st.store.objs.length) :: st.seen⟩)
                (hprops _ (cloneVals (fun st3 v2 => cloneV opts n st3 path v2)
                  ⟨st.store.push ⟨.plain, 0, []⟩,
                    (a, st.store.objs.length) :: st.seen⟩ es).1))) _ _ (le_refl _)
          | mapData en =>
            dsimp only
            exact SExt.write (SExt.trans (SExt.push _ _)
              (SExt.trans
                (hentries en ⟨st.store.push ⟨.plain, 0, []⟩,
                  (a, st.store.objs.length) :: st.seen⟩)
                (hprops _ (cloneEntries (fun st3 v2 => cloneV opts n st3 path v2)
                  ⟨st.store.push ⟨.plain, 0, []⟩,
                    (a, st.store.objs.length) :: st.seen⟩ en).1))) _ _ (le_refl _)

theorem deepEq_refl (genv : GetterEnv) (S : Store) (o : EqOptions)
    (fuel : Nat) (seen : List (Nat × Nat)) (v : Val) (h : 1 ≤ fuel) :
    deepEq genv S o fuel seen v v = true := by
  match fuel, h with
  | fuel+1, _ => simp [deepEq]

theorem eqProps_refl (genv : GetterEnv) (o : EqOptions) (f : Val → Val → Bool)
    (ps : List (Key × PropAttr)) (hf : ∀ v, f v v = true) :
    eqProps genv o f ps ps = true := by
  unfold eqProps
  simp only [Bool.and_eq_true, List.all_eq_true, decide_eq_true_eq]
  exact ⟨⟨fun k hk => hk, fun k hk => hk⟩, fun k _ => hf _⟩

/-- C10: inside Set elements and Map keys, `+0` and `-0` are identified
(SameValueZero membership), while at top level `equal(+0, -0)` is false
and `equal(-0, -0)`, `equal(+0, +0)` are true under default options. -/
theorem C10_signed_zero :
    deepEqual genv0 S10 (.ref 0) (.ref 1) {} = true ∧
    deepEqual genv0 S10 (.ref 2) (.ref 3) {} = true ∧
    deepEqual genv0 S10 vz vnz {} = false ∧
    deepEqual genv0 S10 vnz vz {} = false ∧
    deepEqual genv0 S10 vnz vnz {} = true ∧
    deepEqual genv0 S10 vz vz {} = true := by
  decide

/-- C4 counterexample: two Error values that agree on name, message and
extra properties but whose `stack` texts differ still compare equal, so
the stack does not participate in the comparison as the claim states. -/
theorem C4_cex :
    SE4.get? 0 = some ⟨.errObj "Error" (vstr "bad") (vstr "stack1"), 0, []⟩ ∧
    SE4.get? 1 = some ⟨.errObj "Error" (vstr "bad") (vstr "late update"), 0, []⟩ ∧
    deepEqual genv0 SE4 (.ref 0) (.ref 1) {} = true := by
  refine ⟨rfl, rfl, ?_⟩
  decide

/-- C4 amended: the `stack` text of an Error is not part of the
comparison: two Error values with the same name, the same (`===`-equal
reflexive) message, the same identity-kind and the same own extra
properties compare equal under default options whatever their stacks. -/
theorem C4_amended (genv : GetterEnv) (S : Store) (a1 a2 sp : Nat)
    (nm : String) (msg stk1 stk2 : Val) (ps : List (Key × PropAttr))
    (h1 : S.get? a1 = some ⟨.errObj nm msg stk1, sp, ps⟩)
    (h2 : S.get? a2 = some ⟨.errObj nm msg stk2, sp, ps⟩)
    (hm : strictEqV msg msg = true) :
    deepEqual genv S (.ref a1) (.ref a2) {} = true := by
  by_cases he : a1 = a2
  · subst he
    exact deepEq_refl genv S {} _ [] (.ref a1) (by omega)
  · show deepEq genv S {} (S.objs.length * S.objs.length + 1 + 1) []
      (.ref a1) (.ref a2) = true
    rw [deepEq]
    rw [if_neg (by simp [he])]
    rw [h1, h2]
    simp only [ObjData.kind, hm, List.not_mem_nil, if_false, not_true, not_false_iff,
      eq_self_iff_true, decide_True, decide_False, Bool.and_false, Bool.false_eq_true,
      if_true]
    exact eqProps_refl _ _ _ _ (fun v => deepEq_refl _ _ _ _ _ _ (by omega))

/-- C4 witness: the amended statement applied to the concrete
late-stack-update scenario. -/
theorem C4_witness :
    SE4.get? 0 = some ⟨.errObj "Error" (vstr "bad") (vstr "stack1"), 0, []⟩ ∧
    strictEqV (vstr "bad") (vstr "bad") = true ∧
    deepEqual genv0 SE4 (.ref 0) (.ref 1) {} = true :=
  ⟨rfl, by decide, C4_amended genv0 SE4 0 1 0 "Error" (vstr "bad")
    (vstr "stack1") (vstr "late update") [] rfl rfl (by decide)⟩

/-- C5 counterexample: two Error values whose messages are distinct but
structurally equal composite values (two empty records) compare unequal,
so `message` is not compared structurally as the claim states. -/
theorem C5_cex :
    deepEqual genv0 SE5 (.ref 0) (.ref 1) {} = true ∧
    deepEqual genv0 SE5 (.ref 2) (.ref 3) {} = false := by
  constructor
  · decide
  · decide

/-- C5 amended: `equal` compares Error `message` fields with `===`
(reference identity for composite messages): whenever the two messages
are not `===`-equal the Error values compare unequal, whatever the rest
of their structure. -/
theorem C5_amended (genv : GetterEnv) (S : Store) (a1 a2 sp1 sp2 : Nat)
    (nm1 nm2 : String) (m1 m2 stk1 stk2 : Val)
    (ps1 ps2 : List (Key × PropAttr))
    (h1 : S.get? a1 = some ⟨.errObj nm1 m1 stk1, sp1, ps1⟩)
    (h2 : S.get? a2 = some ⟨.errObj nm2 m2 stk2, sp2, ps2⟩)
    (hne : ¬(a1 = a2)) (hm : strictEqV m1 m2 = false) :
    deepEqual genv S (.ref a1) (.ref a2) {} = false := by
  show deepEq genv S {} (S.objs.length * S.objs.length + 1 + 1) []
    (.ref a1) (.ref a2) = false
  rw [deepEq]
  rw [if_neg (by simp [hne])]
  rw [h1, h2]
  simp only [ObjData.kind, hm, List.not_mem_nil, if_false, not_true, not_false_iff,
    eq_self_iff_true, decide_True, decide_False, Bool.and_false, Bool.false_eq_true,
    if_true, Bool.not_false, Bool.true_and]
  by_cases hsp : sp1 = sp2
  · simp only [hsp, eq_self_iff_true, not_true, decide_False, Bool.and_false,
      Bool.false_eq_true, if_false]
    by_cases hnm : nm1 = nm2
    · simp [hnm]
    · simp [hnm]
  · simp [hsp]

/-- C5 witness: the amended statement applied to the two concrete
Error values with structurally-equal composite messages. -/
theorem C5_witness :
    SE5.get? 2 = some ⟨.errObj "Error" (.ref 0) (vstr "s"), 0, []⟩ ∧
    strictEqV (.ref 0) (.ref 1) = false ∧
    deepEqual genv0 SE5 (.ref 2) (.ref 3) {} = false :=
  ⟨rfl, by decide, C5_amended genv0 SE5 2 3 0 0 "Error" "Error"
    (.ref 0) (.ref 1) (vstr "s") (vstr "s") [] [] rfl rfl
    (by decide) (by decide)⟩

/-- C7 counterexample: `applyToDefaults({x:1}, {x:null})` under default
options yields `x = 1`, not `x = null`: an explicit `null` on a source
key does not override the default for `applyToDefaults`. -/
theorem C7_cex :
    applyNullX .absent ≠ some (.prim .null) ∧
    applyNullX .absent = some (vint 1) := by
  constructor
  · decide
  · rfl

/-- C7 amended: under default options `merge({x:1}, {x:null})` yields
`x = null` and `nullOverride: false` keeps `x = 1`; for
`applyToDefaults` the default keeps `x = 1` and the opt-in
`nullOverride: true` yields `x = null`. -/
theorem C7_amended :
    mergeNullX {} = some (.prim .null) ∧
    mergeNullX { nullOverride := false } = some (vint 1) ∧
    applyNullX .absent = some (vint 1) ∧
    applyNullX (.given { nullOverride := some true }) = some (.prim .null) := by
  refine ⟨rfl, rfl, rfl, rfl⟩

theorem lookupSeen_nil (a : Nat) : lookupSeen [] a = none := rfl

theorem cloneProps_accessor_mem (symbols : Bool) (isShallow : Key → Bool)
    (cf : CSt → Key → Val → CSt × Val) :
    ∀ (ps : List (Key × PropAttr)) (st : CSt) (k : Key) (en : Bool)
      (g s : Option Nat),
      (k, ⟨en, .accessor g s⟩) ∈ ps → ¬(k = Key.str "__proto__") →
      (isSymKey k && !symbols) = false →
      (k, ⟨en, .accessor g s⟩) ∈ (cloneProps symbols isShallow cf st ps).2 := by
  intro ps
  induction ps with
  | nil => intro st k en g s hk; exact absurd hk (List.not_mem_nil _)
  | cons kp rest ih =>
    intro st k en g s hk hnp hsym
    obtain ⟨k1, attr1⟩ := kp
    rw [cloneProps]
    rcases List.mem_cons.mp hk with hhead | htail
    · have hk1 : k = k1 := congrArg Prod.fst hhead
      have hattr1 : (⟨en, .accessor g s⟩ : PropAttr) = attr1 := congrArg Prod.snd hhead
      subst hk1
      rw [if_neg hnp, if_neg (by simp [hsym])]
      rw [← hattr1]
      exact List.mem_cons_self _ _
    · by_cases h1 : k1 = Key.str "__proto__"
      · rw [if_pos h1]; exact ih st k en g s htail hnp hsym
      · rw [if_neg h1]
        by_cases h2 : (isSymKey k1 && !symbols) = true
        · rw [if_pos h2]; exact ih st k en g s htail hnp hsym
        · rw [if_neg h2]
          obtain ⟨en1, pk1⟩ := attr1
          cases pk1 with
          | accessor g1 s1 =>
            dsimp only
            exact List.mem_cons_of_mem _ (ih st k en g s htail hnp hsym)
          | data v1 =>
            dsimp only
            by_cases h3 : isShallow k1 = true
            · rw [if_pos h3]
              exact List.mem_cons_of_mem _ (ih st k en g s htail hnp hsym)
            · rw [if_neg h3]
              exact List.mem_cons_of_mem _ (ih _ k en g s htail hnp hsym)

theorem cloneProps_noProto (symbols : Bool) (isShallow : Key → Bool)
    (cf : CSt → Key → Val → CSt × Val) :
    ∀ (ps : List (Key × PropAttr)) (st : CSt),
      noProtoProps (cloneProps symbols isShallow cf st ps).2 := by
  intro ps
  induction ps with
  | nil => intro st attr h; exact absurd h (List.not_mem_nil _)
  | cons kp rest ih =>
    intro st
    obtain ⟨k1, attr1⟩ := kp
    rw [cloneProps]
    by_cases h1 : k1 = Key.str "__proto__"
    · rw [if_pos h1]; exact ih st
    · rw [if_neg h1]
      by_cases h2 : (isSymKey k1 && !symbols) = true
      · rw [if_pos h2]; exact ih st
      · rw [if_neg h2]
        obtain ⟨en1, pk1⟩ := attr1
        cases pk1 with
        | accessor g1 s1 =>
          intro attr h
          rcases List.mem_cons.mp h with hh | ht
          · exact h1 (congrArg Prod.fst hh).symm
          · exact ih st attr ht
        | data v1 =>
          dsimp only
          by_cases h3 : isShallow k1 = true
          · rw [if_pos h3]
            intro attr h
            rcases List.mem_cons.mp h with hh | ht
            · exact h1 (by simpa using (congrArg Prod.fst hh).symm)
            · exact ih st attr ht
          · rw [if_neg h3]
            intro attr h
            rcases List.mem_cons.mp h with hh | ht
            · exact h1 (by simpa using (congrArg Prod.fst hh).symm)
            · exact ih _ attr ht

theorem cloneEntries_fst (cf : CSt → Val → CSt × Val) :
    ∀ (en : List (Val × Val)) (st : CSt),
      ((cloneEntries cf st en).2).map Prod.fst = en.map Prod.fst := by
  intro en
  induction en with
  | nil => intro st; rfl
  | cons e rest ih =>
    intro st
    obtain ⟨k, v⟩ := e
    rw [cloneEntries]
    simp [ih]

theorem clone_ref_plain (S : Store) (a sp : Nat) (ps : List (Key × PropAttr))
    (opts : CloneOptions) (hobj : S.get? a = some ⟨.plain, sp, ps⟩) :
    (clone S (.ref a) opts).2 = .ref S.objs.length ∧
    ∃ ps2, (clone S (.ref a) opts).1.get? S.objs.length =
        some ⟨.plain, (if opts.proto then sp else 0), ps2⟩ ∧
      ∃ st2, ps2 = (cloneProps opts.symbols
        (fun k => decide ((([] : List Key) ++ [k]) ∈ opts.shallow))
        (fun st3 k v2 => cloneV opts S.objs.length st3 ([] ++ [k]) v2) st2 ps).2 := by
  unfold clone
  rw [cloneV]
  simp only [lookupSeen_nil]
  rw [show (CSt.mk S []).store.get? a = some ⟨.plain, sp, ps⟩ from hobj]
  dsimp only
  constructor
  · rfl
  · refine ⟨_, ?_, ⟨⟨S.push ⟨.plain, 0, []⟩, [(a, S.objs.length)]⟩, rfl⟩⟩
    have hext := cloneProps_ext opts.symbols
      (fun k => decide ((([] : List Key) ++ [k]) ∈ opts.shallow))
      (fun st3 k v2 => cloneV opts S.objs.length st3 ([] ++ [k]) v2)
      (fun st3 k v2 => cloneV_ext opts S.objs.length st3 ([] ++ [k]) v2) ps
      ⟨S.push ⟨.plain, 0, []⟩, [(a, S.objs.length)]⟩
    have hlen : S.objs.length <
        (cloneProps opts.symbols
          (fun k => decide ((([] : List Key) ++ [k]) ∈ opts.shallow))
          (fun st3 k v2 => cloneV opts S.objs.length st3 ([] ++ [k]) v2)
          ⟨S.push ⟨.plain, 0, []⟩, [(a, S.objs.length)]⟩ ps).1.store.objs.length := by
      have := hext.1
      simp only [Store.push_length] at this
      omega
    exact Store.get?_setObj_self _ _ _ hlen

theorem clone_ref_map (S : Store) (a sp : Nat) (en : List (Val × Val))
    (ps : List (Key × PropAttr)) (opts : CloneOptions)
    (hobj : S.get? a = some ⟨.mapData en, sp, ps⟩) :
    (clone S (.ref a) opts).2 = .ref S.objs.length ∧
    ∃ en2 ps2, (clone S (.ref a) opts).1.get? S.objs.length =
        some ⟨.mapData en2, (if opts.proto then sp else 0), ps2⟩ ∧
      en2.map Prod.fst = en.map Prod.fst := by
  unfold clone
  rw [cloneV]
  simp only [lookupSeen_nil]
  rw [show (CSt.mk S []).store.get? a = some ⟨.mapData en, sp, ps⟩ from hobj]
  dsimp only
  constructor
  · rfl
  · refine ⟨(cloneEntries (fun st3 v2 => cloneV opts S.objs.length st3 [] v2)
      ⟨S.push ⟨.plain, 0, []⟩, [(a, S.objs.length)]⟩ en).2,
      (cloneProps opts.symbols
        (fun k => decide ((([] : List Key) ++ [k]) ∈ opts.shallow))
        (fun st3 k v2 => cloneV opts S.objs.length st3 ([] ++ [k]) v2)
        (cloneEntries (fun st3 v2 => cloneV opts S.objs.length st3 [] v2)
          ⟨S.push ⟨.plain, 0, []⟩, [(a, S.objs.length)]⟩ en).1 ps).2, ?_,
      cloneEntries_fst _ en _⟩
    have hentx := cloneEntries_ext
      (fun st3 v2 => cloneV opts S.objs.length st3 [] v2)
      (fun st3 v2 => cloneV_ext opts S.objs.length st3 [] v2) en
      ⟨S.push ⟨.plain, 0, []⟩, [(a, S.objs.length)]⟩
    have hext := cloneProps_ext opts.symbols
      (fun k => decide ((([] : List Key) ++ [k]) ∈ opts.shallow))
      (fun st3 k v2 => cloneV opts S.objs.length st3 ([] ++ [k]) v2)
      (fun st3 k v2 => cloneV_ext opts S.objs.length st3 ([] ++ [k]) v2) ps
      (cloneEntries (fun st3 v2 => cloneV opts S.objs.length st3 [] v2)
        ⟨S.push ⟨.plain, 0, []⟩, [(a, S.objs.length)]⟩ en).1
    have hlen : S.objs.length <
        (cloneProps opts.symbols
          (fun k => decide ((([] : List Key) ++ [k]) ∈ opts.shallow))
          (fun st3 k v2 => cloneV opts S.objs.length st3 ([] ++ [k]) v2)
          (cloneEntries (fun st3 v2 => cloneV opts S.objs.length st3 [] v2)
            ⟨S.push ⟨.plain, 0, []⟩, [(a, S.objs.length)]⟩ en).1 ps).1.store.objs.length := by
      have h1 := hentx.1
      have h2 := hext.1
      simp only [Store.push_length] at h1
      omega
    exact Store.get?_setObj_self _ _ _ hlen

theorem upsertProp_noProto (k : Key) (attr : PropAttr)
    (hk : ¬(k = Key.str "__proto__")) :
    ∀ ps, noProtoProps ps → noProtoProps (upsertProp ps k attr) := by
  intro ps
  induction ps with
  | nil =>
    intro _ attr2 h
    rcases List.mem_cons.mp h with hh | ht
    · exact hk (by simpa using (congrArg Prod.fst hh).symm)
    · exact absurd ht (List.not_mem_nil _)
  | cons kp rest ih =>
    intro hps
    obtain ⟨k1, a1⟩ := kp
    rw [upsertProp]
    by_cases h1 : k1 = k
    · rw [if_pos h1]
      intro attr2 h
      rcases List.mem_cons.mp h with hh | ht
      · exact hk (h1 ▸ (by simpa using (congrArg Prod.fst hh).symm))
      · exact hps attr2 (List.mem_cons_of_mem _ ht)
    · rw [if_neg h1]
      intro attr2 h
      rcases List.mem_cons.mp h with hh | ht
      · exact hps attr2 (hh ▸ List.mem_cons_self _ _)
      · exact ih (fun attr3 h3 => hps attr3 (List.mem_cons_of_mem _ h3)) attr2 ht

theorem Store.get?_lt {S : Store} {x : Nat} {o : Obj}
    (h : S.get? x = some o) : x < S.objs.length := by
  by_contra hc
  rw [Store.get?, List.get?_eq_getElem?, List.getElem?_eq_none (by omega)] at h
  exact Option.noConfusion h

theorem assignProp_plainNoProto (S : Store) (t : Nat) (k : Key) (v : Val)
    (x sp : Nat) (hk : ¬(k = Key.str "__proto__"))
    (h : plainNoProto S x sp) : plainNoProto (assignProp S t k v) x sp := by
  obtain ⟨ps, hget, hnp⟩ := h
  unfold assignProp
  cases htt : S.get? t with
  | none => exact ⟨ps, hget, hnp⟩
  | some o =>
    by_cases hxt : x = t
    · subst hxt
      rw [hget] at htt
      obtain rfl : o = ⟨.plain, sp, ps⟩ := by injection htt with h2; exact h2.symm
      exact ⟨upsertProp ps k ⟨true, .data v⟩,
        Store.get?_setObj_self _ _ _ (Store.get?_lt hget),
        upsertProp_noProto k _ hk ps hnp⟩
    · exact ⟨ps, by rw [Store.get?_setObj_ne _ _ _ _ hxt]; exact hget, hnp⟩

theorem clone_plainNoProto (S : Store) (v : Val) (opts : CloneOptions)
    (x sp : Nat) (h : plainNoProto S x sp) :
    plainNoProto (clone S v opts).1 x sp := by
  obtain ⟨ps, hget, hnp⟩ := h
  refine ⟨ps, ?_, hnp⟩
  have hext := cloneV_ext opts (S.objs.length + 1) ⟨S, []⟩ [] v
  rw [show (clone S v opts).1 = (cloneV opts (S.objs.length + 1) ⟨S, []⟩ [] v).1.store from rfl]
  rw [hext.2 x (Store.get?_lt hget)]
  exact hget

theorem mergeProps_plainNoProto (genv : GetterEnv) (opts : MergeOptions)
    (rec : Store → Nat → Nat → Store) (cln : Store → Val → Store × Val) (t : Nat)
    (hrec : ∀ S t2 s2 x sp, plainNoProto S x sp → plainNoProto (rec S t2 s2) x sp)
    (hcln : ∀ S v x sp, plainNoProto S x sp → plainNoProto (cln S v).1 x sp) :
    ∀ (sps : List (Key × PropAttr)) (S : Store) (x sp : Nat),
      plainNoProto S x sp →
      plainNoProto (mergeProps genv opts rec cln t S sps) x sp := by
  intro sps
  induction sps with
  | nil => intro S x sp h; exact h
  | cons kp rest ih =>
    intro S x sp h
    obtain ⟨k, attr⟩ := kp
    rw [mergeProps]
    by_cases h1 : k = Key.str "__proto__"
    · rw [if_pos h1]; exact ih S x sp h
    · rw [if_neg h1]
      by_cases h2 : (!attr.enumerable) = true
      · rw [if_pos h2]; exact ih S x sp h
      · rw [if_neg h2]
        by_cases h3 : (isSymKey k && !opts.symbols) = true
        · rw [if_pos h3]; exact ih S x sp h
        · rw [if_neg h3]
          apply ih
          cases hv : readAttr genv attr with
          | ref r =>
            dsimp only
            cases hr : S.get? r with
            | none => exact assignProp_plainNoProto S t k _ x sp h1 h
            | some ro =>
              dsimp only
              cases hro : ro.data <;> dsimp only <;>
                first
                  | exact assignProp_plainNoProto S t k _ x sp h1 h
                  | (cases hto : readOwn genv (targetProps S t) k with
                     | prim p =>
                       dsimp only
                       exact assignProp_plainNoProto _ t k _ x sp h1 (hcln S _ x sp h)
                     | ref tr =>
                       dsimp only
                       cases htr : S.get? tr with
                       | none =>
                         dsimp only
                         exact assignProp_plainNoProto _ t k _ x sp h1 (hcln S _ x sp h)
                       | some tobj =>
                         dsimp only
                         split
                         · exact hrec S tr r x sp h
                         · exact assignProp_plainNoProto _ t k _ x sp h1 (hcln S _ x sp h))
          | prim p =>
            cases p with
            | null =>
              dsimp only
              split
              · exact assignProp_plainNoProto S t k _ x sp h1 h
              · exact h
            | undefined =>
              dsimp only
              split
              · exact assignProp_plainNoProto S t k _ x sp h1 h
              · exact h
            | bool b => exact assignProp_plainNoProto S t k _ x sp h1 h
            | num n => exact assignProp_plainNoProto S t k _ x sp h1 h
            | str s2 => exact assignProp_plainNoProto S t k _ x sp h1 h
            | sym i => exact assignProp_plainNoProto S t k _ x sp h1 h

theorem clone_ext (S : Store) (v : Val) (o : CloneOptions) :
    SExt S (clone S v o).1 :=
  cloneV_ext o (S.objs.length + 1) ⟨S, []⟩ [] v

theorem cloneFold_ext (o : CloneOptions) :
    ∀ (ses : List Val) (acc : Store × List Val),
      SExt acc.1 (ses.foldl
        (fun (acc2 : Store × List Val) e =>
          let rc := clone acc2.1 e o
          (rc.1, acc2.2 ++ [rc.2])) acc).1 := by
  intro ses
  induction ses with
  | nil => intro acc; exact SExt.refl _
  | cons e rest ih =>
    intro acc
    rw [List.foldl_cons]
    exact SExt.trans (clone_ext acc.1 e o)
      (ih ((clone acc.1 e o).1, acc.2 ++ [(clone acc.1 e o).2]))

theorem mergeInto_plainNoProto (genv : GetterEnv) (opts : MergeOptions) :
    ∀ (fuel : Nat) (S : Store) (t s x sp : Nat),
      plainNoProto S x sp →
      plainNoProto (mergeInto genv opts fuel S t s) x sp := by
  intro fuel
  induction fuel with
  | zero => intro S t s x sp h; exact h
  | succ n ih =>
    intro S t s x sp h
    rw [mergeInto]
    cases hT : S.get? t with
    | none => exact h
    | some tobj =>
      cases hS : S.get? s with
      | none => exact h
      | some sobj =>
        dsimp only
        cases htd : tobj.data <;> try dsimp only
        case array tes =>
          cases hsd : sobj.data <;> try dsimp only
          case array ses =>
            obtain ⟨ps0, hget0, hnp0⟩ := h
            have hxt : ¬(x = t) := by
              intro he
              subst he
              rw [hget0] at hT
              have h9 : Obj.mk .plain sp ps0 = tobj := by injection hT
              rw [← h9] at htd
              exact ObjData.noConfusion htd
            refine ⟨ps0, ?_, hnp0⟩
            rw [Store.get?_setObj_ne _ _ _ _ hxt]
            rw [(cloneFold_ext { symbols := opts.symbols } ses
              (S, if opts.mergeArrays = true then tes else [])).2 x (Store.get?_lt hget0)]
            exact hget0
          all_goals exact (mergeProps_plainNoProto genv opts (mergeInto genv opts n)
            (fun S2 v => clone S2 v { symbols := opts.symbols }) t
            (fun S2 t2 s2 x2 sp2 h2 => ih S2 t2 s2 x2 sp2 h2)
            (fun S2 v x2 sp2 h2 => clone_plainNoProto S2 v _ x2 sp2 h2)
            sobj.props S x sp h)
        all_goals exact (mergeProps_plainNoProto genv opts (mergeInto genv opts n)
          (fun S2 v => clone S2 v { symbols := opts.symbols }) t
          (fun S2 t2 s2 x2 sp2 h2 => ih S2 t2 s2 x2 sp2 h2)
          (fun S2 v x2 sp2 h2 => clone_plainNoProto S2 v _ x2 sp2 h2)
          sobj.props S x sp h)

/-- C3 amended: the clone engine copies an accessor property's
descriptor verbatim onto the clone without invoking the getter: for
every record object with an own accessor property (not named
`__proto__`), the cloned object carries the identical accessor (same
getter and setter identifiers, same enumerability). -/
theorem C3_amended (S : Store) (a sp : Nat) (ps : List (Key × PropAttr))
    (k : Key) (en : Bool) (g s : Option Nat)
    (hobj : S.get? a = some ⟨.plain, sp, ps⟩)
    (hk : (k, ⟨en, .accessor g s⟩) ∈ ps)
    (hnp : ¬(k = Key.str "__proto__")) :
    (clone S (.ref a) {}).2 = .ref S.objs.length ∧
    ∃ ps2, (clone S (.ref a) {}).1.get? S.objs.length = some ⟨.plain, sp, ps2⟩ ∧
      (k, ⟨en, .accessor g s⟩) ∈ ps2 := by
  obtain ⟨h2, ps2, hget, st2, hps2⟩ := clone_ref_plain S a sp ps {} hobj
  refine ⟨h2, ps2, ?_, ?_⟩
  · simpa using hget
  · rw [hps2]
    exact cloneProps_accessor_mem _ _ _ ps st2 k en g s hk hnp (by simp)

/-- C3 counterexample: cloning the test scenario's getter-only object
re-creates the accessor on the clone (the `test` property of the clone
is still an accessor with getter identifier 0, not a plain data
property holding the resolved value), contradicting the claim that the
getter is invoked once and written as a data property. -/
theorem C3_cex :
    (clone S3g (.ref 0) {}).2 = .ref 1 ∧
    (clone S3g (.ref 0) {}).1.get? 1 =
      some ⟨.plain, 0, [(Key.str "test", ⟨true, .accessor (some 0) none⟩)]⟩ :=
  ⟨rfl, rfl⟩

/-- C3 witness: the amended statement applied to the concrete
getter-only object. -/
theorem C3_witness :
    S3g.get? 0 = some ⟨.plain, 0, [(Key.str "test", ⟨true, .accessor (some 0) none⟩)]⟩ ∧
    ((clone S3g (.ref 0) {}).2 = .ref 1 ∧
     ∃ ps2, (clone S3g (.ref 0) {}).1.get? 1 = some ⟨.plain, 0, ps2⟩ ∧
       (Key.str "test", ⟨true, .accessor (some 0) none⟩) ∈ ps2) :=
  ⟨rfl, C3_amended S3g 0 0 _ (Key.str "test") true (some 0) none rfl
    (List.mem_cons_self _ _) (by decide)⟩

/-- C6 amended: clone builds a new Map of the same identity-kind at a
fresh address, keeps every key by reference (the key list of the clone
is pointwise identical to the source's, preserving iteration order) and
recursively clones the values; concretely, the object value stored
under key `"c"` is cloned to a fresh address that is deeply equal to
the original. -/
theorem C6_amended :
    (∀ (S : Store) (a sp : Nat) (en : List (Val × Val)) (ps : List (Key × PropAttr)),
      S.get? a = some ⟨.mapData en, sp, ps⟩ →
      (clone S (.ref a) {}).2 = .ref S.objs.length ∧
      ∃ en2 ps2, (clone S (.ref a) {}).1.get? S.objs.length =
          some ⟨.mapData en2, sp, ps2⟩ ∧
        en2.map Prod.fst = en.map Prod.fst) ∧
    ((clone S6m (.ref 1) {}).2 = .ref 2 ∧
     (clone S6m (.ref 1) {}).1.get? 2 =
       some ⟨.mapData [(vstr "a", vint 1), (.ref 0, vint 3), (vstr "c", .ref 3)], 0, []⟩ ∧
     deepEqual genv0 (clone S6m (.ref 1) {}).1 (.ref 0) (.ref 3) {} = true) := by
  constructor
  · intro S a sp en ps hobj
    obtain ⟨h2, en2, ps2, hget, hfst⟩ := clone_ref_map S a sp en ps {} hobj
    exact ⟨h2, en2, ps2, by simpa using hget, hfst⟩
  · exact ⟨rfl, rfl, by decide⟩

/-- C6 counterexample: cloning a Map whose key is the object at
address 0 keeps that very reference as the key of the cloned Map (the
cloned entries still name `.ref 0`), contradicting the claim that an
object used as a Map key is itself deep-copied. -/
theorem C6_cex :
    S6m.get? 1 = some ⟨.mapData [(vstr "a", vint 1), (.ref 0, vint 3), (vstr "c", .ref 0)], 0, []⟩ ∧
    (clone S6m (.ref 1) {}).2 = .ref 2 ∧
    (clone S6m (.ref 1) {}).1.get? 2 =
      some ⟨.mapData [(vstr "a", vint 1), (.ref 0, vint 3), (vstr "c", .ref 3)], 0, []⟩ :=
  ⟨rfl, rfl, rfl⟩

/-- C6 witness: the amended statement applied to the concrete Map
holding an object key and an object value. -/
theorem C6_witness :
    S6m.get? 1 = some ⟨.mapData [(vstr "a", vint 1), (.ref 0, vint 3), (vstr "c", .ref 0)], 0, []⟩ ∧
    ((clone S6m (.ref 1) {}).2 = .ref 2 ∧
     ∃ en2 ps2, (clone S6m (.ref 1) {}).1.get? 2 = some ⟨.mapData en2, 0, ps2⟩ ∧
       en2.map Prod.fst = [vstr "a", .ref 0, vstr "c"]) :=
  ⟨rfl, C6_amended.1 S6m 1 0 _ [] rfl⟩

/-- C9: both `clone` and `merge` silently skip an own key literally
named `__proto__`: the clone of any record carries no such own key, and
merging any record source onto a record target that lacks the key
returns successfully (no error) with the target still a plain record of
its original identity-kind and still without the key; the concrete
JSON-parsed scenario evaluates accordingly. -/
theorem C9_proto_poisoning :
    (∀ (S : Store) (a sp : Nat) (ps : List (Key × PropAttr)),
      S.get? a = some ⟨.plain, sp, ps⟩ →
      ∃ ps2, (clone S (.ref a) {}).1.get? S.objs.length = some ⟨.plain, sp, ps2⟩ ∧
        noProtoProps ps2) ∧
    (∀ (genv : GetterEnv) (S : Store) (t s tsp ssp : Nat)
       (tps sps : List (Key × PropAttr)) (opts : MergeOptions),
      S.get? t = some ⟨.plain, tsp, tps⟩ → S.get? s = some ⟨.plain, ssp, sps⟩ →
      noProtoProps tps →
      ∃ S2, merge genv S (.ref t) (.ref s) opts = .ok (S2, .ref t) ∧
        plainNoProto S2 t tsp) ∧
    ((clone S9p (.ref 0) {}).1.get? 3 =
      some ⟨.plain, 0, [(Key.str "ok", dprop (vstr "value"))]⟩ ∧
     merge genv0 S9p (.ref 2) (.ref 0) {} =
       .ok (mergeInto genv0 {} 4 S9p 2 0, .ref 2) ∧
     (mergeInto genv0 {} 4 S9p 2 0).get? 2 =
       some ⟨.plain, 0, [(Key.str "ok", dprop (vstr "value"))]⟩) := by
  refine ⟨?_, ?_, rfl, rfl, rfl⟩
  · intro S a sp ps hobj
    obtain ⟨h2, ps2, hget, st2, hps2⟩ := clone_ref_plain S a sp ps {} hobj
    exact ⟨ps2, by simpa using hget, hps2 ▸ cloneProps_noProto _ _ _ ps st2⟩
  · intro genv S t s tsp ssp tps sps opts hT hS hnp
    refine ⟨mergeInto genv opts (S.objs.length + 1) S t s, ?_, ?_⟩
    · unfold merge
      dsimp only
      rw [hT]
      dsimp only
      rw [hS]
    · exact mergeInto_plainNoProto genv opts (S.objs.length + 1) S t s t tsp
        ⟨tps, hT, hnp⟩

/-- C8: `applyToDefaults` returns a clone of `defaults` when `source`
is boolean `true`, returns `null` when `source` is falsy, and throws
`Invalid defaults value: must be an object` when `defaults` is not an
object, `Invalid source value: must be true, falsy or an object` when
`source` is neither true, falsy nor an object, and
`Invalid options: must be an object` when the options argument is
present but not an object. -/
theorem C8_contract (genv : GetterEnv) (S : Store) (defaults source : Val)
    (arg : OptionsArg) :
    (isObjRef S defaults = false →
      applyToDefaults genv S defaults source arg =
        .error "Invalid defaults value: must be an object") ∧
    (isObjRef S defaults = true →
      (decide (source = .prim (.bool true)) || falsy source || isObjRef S source) = false →
      applyToDefaults genv S defaults source arg =
        .error "Invalid source value: must be true, falsy or an object") ∧
    (isObjRef S defaults = true →
      (decide (source = .prim (.bool true)) || falsy source || isObjRef S source) = true →
      applyToDefaults genv S defaults source .notObject =
        .error "Invalid options: must be an object") ∧
    (isObjRef S defaults = true → source = .prim (.bool true) → ¬(arg = .notObject) →
      applyToDefaults genv S defaults source arg = .ok (clone S defaults {})) ∧
    (isObjRef S defaults = true → falsy source = true → ¬(arg = .notObject) →
      applyToDefaults genv S defaults source arg = .ok (S, .prim .null)) := by
  refine ⟨?_, ?_, ?_, ?_, ?_⟩
  · intro h1
    simp [applyToDefaults, h1]
  · intro h1 h2
    simp only [Bool.or_eq_false_iff, decide_eq_false_iff_not] at h2
    simp [applyToDefaults, h1, h2.1.1, h2.1.2, h2.2]
  · intro h1 h2
    simp [applyToDefaults, h1, h2]
  · intro h1 hsrc harg
    subst hsrc
    cases arg with
    | notObject => exact absurd rfl harg
    | absent => simp [applyToDefaults, h1]
    | given o => simp [applyToDefaults, h1]
  · intro h1 hfalsy harg
    have hne : ¬(source = .prim (.bool true)) := by
      intro he
      rw [he] at hfalsy
      exact Bool.noConfusion hfalsy
    cases arg with
    | notObject => exact absurd rfl harg
    | absent => simp [applyToDefaults, h1, hfalsy, hne]
    | given o => simp [applyToDefaults, h1, hfalsy, hne]

/-- C8 witness: the contract applied at concrete inputs: null and
string defaults are rejected, a string source is rejected, a non-object
options argument is rejected, `source === true` yields the clone of the
defaults, and a falsy source yields `null`. -/
theorem C8_witness :
    isObjRef S7n (.prim .null) = false ∧
    applyToDefaults genv0 S7n (.prim .null) (.ref 1) .absent =
      .error "Invalid defaults value: must be an object" ∧
    applyToDefaults genv0 S7n (vstr "abc") (.ref 1) .absent =
      .error "Invalid defaults value: must be an object" ∧
    applyToDefaults genv0 S7n (.ref 0) (vstr "abc") .absent =
      .error "Invalid source value: must be true, falsy or an object" ∧
    applyToDefaults genv0 S7n (.ref 0) (.ref 1) .notObject =
      .error "Invalid options: must be an object" ∧
    applyToDefaults genv0 S7n (.ref 0) (.prim (.bool true)) .absent =
      .ok (clone S7n (.ref 0) {}) ∧
    applyToDefaults genv0 S7n (.ref 0) (.prim (.bool false)) .absent =
      .ok (S7n, .prim .null) :=
  ⟨rfl,
   (C8_contract genv0 S7n (.prim .null) (.ref 1) .absent).1 rfl,
   (C8_contract genv0 S7n (vstr "abc") (.ref 1) .absent).1 rfl,
   (C8_contract genv0 S7n (.ref 0) (vstr "abc") .absent).2.1 rfl (by decide),
   (C8_contract genv0 S7n (.ref 0) (.ref 1) .notObject).2.2.1 rfl (by decide),
   (C8_contract genv0 S7n (.ref 0) (.prim (.bool true)) .absent).2.2.2.1 rfl rfl
     (by decide),
   (C8_contract genv0 S7n (.ref 0) (.prim (.bool false)) .absent).2.2.2.2 rfl
     (by decide) (by decide)⟩

/-- C9 witness: the general clauses applied to the concrete JSON-parsed
scenario: the clone of the poisoned object has no own `__proto__` key,
and merging it onto an empty record succeeds with the target left a
plain record without the key. -/
theorem C9_witness :
    S9p.get? 0 = some ⟨.plain, 0,
      [(Key.str "ok", dprop (vstr "value")), (Key.str "__proto__", dprop (.ref 1))]⟩ ∧
    (∃ ps2, (clone S9p (.ref 0) {}).1.get? 3 = some ⟨.plain, 0, ps2⟩ ∧
      noProtoProps ps2) ∧
    (∃ S2, merge genv0 S9p (.ref 2) (.ref 0) {} = .ok (S2, .ref 2) ∧
      plainNoProto S2 2 0) :=
  ⟨rfl,
   C9_proto_poisoning.1 S9p 0 0 _ rfl,
   C9_proto_poisoning.2.1 genv0 S9p 2 0 0 0 [] _ {} rfl rfl
     (fun attr h => absurd h (List.not_mem_nil _))⟩

theorem map_pair_eq_forall {α β : Type} (ks : List α) (f g : α → β)
    (h : ks.map (fun k => (k, f k)) = ks.map (fun k => (k, g k))) :
    ∀ k ∈ ks, f k = g k := by
  induction ks with
  | nil => intro k hk; exact absurd hk (List.not_mem_nil _)
  | cons k1 rest ih =>
    intro k hk
    rw [List.map_cons, List.map_cons] at h
    have hhead := List.head_eq_of_cons_eq h
    have htail := List.tail_eq_of_cons_eq h
    rcases List.mem_cons.mp hk with rfl | hmem
    · exact congrArg Prod.snd hhead
    · exact ih htail k hmem

theorem seenBudget_dec (L : Nat) (seen : List (Nat × Nat)) (a1 a2 : Nat)
    (h1 : a1 < L) (h2 : a2 < L) (hnot : (a1, a2) ∉ seen) :
    seenBudget L ((a1, a2) :: seen) < seenBudget L seen := by
  unfold seenBudget
  have hmem : (a1, a2) ∈ (Finset.range L ×ˢ Finset.range L).filter
      (fun p => p ∉ seen) := by
    simp [Finset.mem_filter, Finset.mem_product, h1, h2, hnot]
  have hsub : (Finset.range L ×ˢ Finset.range L).filter
        (fun p => p ∉ ((a1, a2) :: seen)) =
      ((Finset.range L ×ˢ Finset.range L).filter (fun p => p ∉ seen)).erase
        (a1, a2) := by
    ext p
    simp only [Finset.mem_filter, Finset.mem_erase, List.mem_cons, not_or]
    constructor
    · rintro ⟨hp, hne, hns⟩
      exact ⟨hne, hp, hns⟩
    · rintro ⟨hne, hp, hns⟩
      exact ⟨hp, hne, hns⟩
  rw [hsub]
  exact Finset.card_erase_lt_of_mem hmem

theorem unfold_plain (genv : GetterEnv) (S : Store) (n a sp : Nat)
    (ps : List (Key × PropAttr)) (hget : S.get? a = some ⟨.plain, sp, ps⟩) :
    unfoldN genv S (n+1) (.ref a) =
      .node sp ((consideredKeys {} ps).map
        (fun k => (k, unfoldN genv S n (readOwn genv ps k)))) := by
  rw [unfoldN, hget]

theorem unfold_other (genv : GetterEnv) (S : Store) (n a : Nat) (o : Obj)
    (hget : S.get? a = some o) (hnp : ¬(o.data = .plain)) :
    unfoldN genv S (n+1) (.ref a) = .other a := by
  rw [unfoldN, hget]
  obtain ⟨od, sp, ps⟩ := o
  cases od with
  | plain => exact absurd rfl hnp
  | array es => rfl
  | mapData en => rfl
  | setData es => rfl
  | date t => rfl
  | regexp s f => rfl
  | errObj nm m stk => rfl
  | funcObj f => rfl
  | buffer bs => rfl
  | urlObj u => rfl

theorem unfold_none (genv : GetterEnv) (S : Store) (n a : Nat)
    (hget : S.get? a = none) :
    unfoldN genv S (n+1) (.ref a) = .other a := by
  rw [unfoldN, hget]

theorem deepEq_of_unfold_eq (genv : GetterEnv) (S : Store) :
    ∀ (fuel : Nat) (seen : List (Nat × Nat)) (v1 v2 : Val),
      (∀ m, unfoldN genv S m v1 = unfoldN genv S m v2) →
      seenBudget S.objs.length seen < fuel →
      deepEq genv S {} fuel seen v1 v2 = true := by
  intro fuel
  induction fuel with
  | zero => intro seen v1 v2 _ hb; omega
  | succ n ih =>
    intro seen v1 v2 huf hb
    by_cases he : v1 = v2
    · subst he; exact deepEq_refl genv S {} (n+1) seen v1 (by omega)
    · cases v1 with
      | prim p1 =>
        cases v2 with
        | prim p2 =>
          exfalso
          have h1 := huf 1
          rw [show unfoldN genv S 1 (.prim p1) = .leaf p1 from rfl,
            show unfoldN genv S 1 (.prim p2) = .leaf p2 from rfl] at h1
          injection h1 with h2
          exact he (congrArg Val.prim h2)
        | ref a2 =>
          exfalso
          have h1 := huf 1
          rw [show unfoldN genv S 1 (.prim p1) = .leaf p1 from rfl] at h1
          cases hget2 : S.get? a2 with
          | none => rw [unfold_none genv S 0 a2 hget2] at h1; exact RTree.noConfusion h1
          | some o2 =>
            by_cases hd2 : o2.data = ObjData.plain
            · obtain ⟨od2, sp2, ps2⟩ := o2
              dsimp only at hd2
              subst hd2
              rw [unfold_plain genv S 0 a2 sp2 ps2 hget2] at h1
              exact RTree.noConfusion h1
            · rw [unfold_other genv S 0 a2 o2 hget2 hd2] at h1
              exact RTree.noConfusion h1
      | ref a1 =>
        cases v2 with
        | prim p2 =>
          exfalso
          have h1 := huf 1
          rw [show unfoldN genv S 1 (.prim p2) = .leaf p2 from rfl] at h1
          cases hget1 : S.get? a1 with
          | none => rw [unfold_none genv S 0 a1 hget1] at h1; exact RTree.noConfusion h1
          | some o1 =>
            by_cases hd1 : o1.data = ObjData.plain
            · obtain ⟨od1, sp1, ps1⟩ := o1
              dsimp only at hd1
              subst hd1
              rw [unfold_plain genv S 0 a1 sp1 ps1 hget1] at h1
              exact RTree.noConfusion h1
            · rw [unfold_other genv S 0 a1 o1 hget1 hd1] at h1
              exact RTree.noConfusion h1
        | ref a2 =>
          have hne : ¬(a1 = a2) := fun h => he (congrArg Val.ref h)
          cases hget1 : S.get? a1 with
          | none =>
            exfalso
            have h1 := huf 1
            rw [unfold_none genv S 0 a1 hget1] at h1
            cases hget2 : S.get? a2 with
            | none =>
              rw [unfold_none genv S 0 a2 hget2] at h1
              injection h1 with h2
              exact hne h2
            | some o2 =>
              by_cases hd2 : o2.data = ObjData.plain
              · obtain ⟨od2, sp2, ps2⟩ := o2
                dsimp only at hd2
                subst hd2
                rw [unfold_plain genv S 0 a2 sp2 ps2 hget2] at h1
                exact RTree.noConfusion h1
              · rw [unfold_other genv S 0 a2 o2 hget2 hd2] at h1
                injection h1 with h2
                exact hne h2
          | some o1 =>
            cases hget2 : S.get? a2 with
            | none =>
              exfalso
              have h1 := huf 1
              rw [unfold_none genv S 0 a2 hget2] at h1
              by_cases hd1 : o1.data = ObjData.plain
              · obtain ⟨od1, sp1, ps1⟩ := o1
                dsimp only at hd1
                subst hd1
                rw [unfold_plain genv S 0 a1 sp1 ps1 hget1] at h1
                exact RTree.noConfusion h1
              · rw [unfold_other genv S 0 a1 o1 hget1 hd1] at h1
                injection h1 with h2
                exact hne h2
            | some o2 =>
              obtain ⟨od1, sp1, ps1⟩ := o1
              obtain ⟨od2, sp2, ps2⟩ := o2
              by_cases hd1 : od1 = ObjData.plain
              · by_cases hd2 : od2 = ObjData.plain
                · subst hd1
                  subst hd2
                  -- species and key sets
                  have hsp : sp1 = sp2 ∧
                      consideredKeys {} ps1 = consideredKeys {} ps2 := by
                    have h1 := huf 1
                    rw [unfold_plain genv S 0 a1 sp1 ps1 hget1,
                      unfold_plain genv S 0 a2 sp2 ps2 hget2] at h1
                    injection h1 with hs hk
                    refine ⟨hs, ?_⟩
                    have h3 := congrArg (List.map Prod.fst) hk
                    rw [List.map_map, List.map_map] at h3
                    simpa [Function.comp_def] using h3
                  have hkids : ∀ m, ∀ k ∈ consideredKeys {} ps1,
                      unfoldN genv S m (readOwn genv ps1 k) =
                      unfoldN genv S m (readOwn genv ps2 k) := by
                    intro m
                    have h1 := huf (m+1)
                    rw [unfold_plain genv S m a1 sp1 ps1 hget1,
                      unfold_plain genv S m a2 sp2 ps2 hget2] at h1
                    injection h1 with hs hk
                    rw [← hsp.2] at hk
                    exact map_pair_eq_forall _ _ _ hk
                  rw [deepEq]
                  rw [if_neg he]
                  rw [hget1, hget2]
                  simp only [ObjData.kind, hsp.1, List.not_mem_nil, if_false,
                    not_true, not_false_iff, eq_self_iff_true, decide_True,
                    decide_False, Bool.and_false, Bool.false_eq_true, if_true]
                  by_cases hseen : (a1, a2) ∈ seen
                  · rw [if_pos hseen]
                  · rw [if_neg hseen]
                    unfold eqProps
                    simp only [Bool.and_eq_true, List.all_eq_true, decide_eq_true_eq]
                    refine ⟨⟨?_, ?_⟩, ?_⟩
                    · intro k hk; rw [← hsp.2]; exact hk
                    · intro k hk; rw [hsp.2]; exact hk
                    · intro k hk
                      exact ih ((a1, a2) :: seen) _ _ (fun m => hkids m k hk)
                        (by
                          have := seenBudget_dec S.objs.length seen a1 a2
                            (Store.get?_lt hget1) (Store.get?_lt hget2) hseen
                          omega)
                · exfalso
                  subst hd1
                  have h1 := huf 1
                  rw [unfold_plain genv S 0 a1 sp1 ps1 hget1,
                    unfold_other genv S 0 a2 ⟨od2, sp2, ps2⟩ hget2 hd2] at h1
                  exact RTree.noConfusion h1
              · by_cases hd2 : od2 = ObjData.plain
                · exfalso
                  subst hd2
                  have h1 := huf 1
                  rw [unfold_plain genv S 0 a2 sp2 ps2 hget2,
                    unfold_other genv S 0 a1 ⟨od1, sp1, ps1⟩ hget1 hd1] at h1
                  exact RTree.noConfusion h1
                · exfalso
                  have h1 := huf 1
                  rw [unfold_other genv S 0 a1 ⟨od1, sp1, ps1⟩ hget1 hd1,
                    unfold_other genv S 0 a2 ⟨od2, sp2, ps2⟩ hget2 hd2] at h1
                  injection h1 with h2
                  exact hne h2

/-- C2: whenever two values of a record graph have identical infinite
unfoldings (identical depth-`m` unfolding for every `m`), `equal`
returns true in both argument orders, whatever the cycle shapes; and in
the concrete cyclic scenarios of the tests, adding a property inside
either side's cycle (`b.x.y = 1` in the irregular scenario, `a.y = 1`
on the other side, `b.x.y = 1` in the cross-circular scenario) makes
`equal` return false in both orders. -/
theorem C2_cycles :
    (∀ (genv : GetterEnv) (S : Store) (v1 v2 : Val),
      (∀ m, unfoldN genv S m v1 = unfoldN genv S m v2) →
      deepEqual genv S v1 v2 {} = true ∧ deepEqual genv S v2 v1 {} = true) ∧
    (deepEqual genv0 S2m (.ref 0) (.ref 1) {} = false ∧
     deepEqual genv0 S2m (.ref 1) (.ref 0) {} = false ∧
     deepEqual genv0 S2am (.ref 0) (.ref 1) {} = false ∧
     deepEqual genv0 S2am (.ref 1) (.ref 0) {} = false ∧
     deepEqual genv0 S2cm (.ref 1) (.ref 0) {} = false ∧
     deepEqual genv0 S2cm (.ref 0) (.ref 1) {} = false) := by
  constructor
  · intro genv S v1 v2 huf
    have hbudget : seenBudget S.objs.length [] <
        S.objs.length * S.objs.length + 2 := by
      have hle : seenBudget S.objs.length [] ≤
          S.objs.length * S.objs.length := by
        unfold seenBudget
        calc ((Finset.range S.objs.length ×ˢ Finset.range S.objs.length).filter
              (fun p => p ∉ ([] : List (Nat × Nat)))).card
            ≤ (Finset.range S.objs.length ×ˢ Finset.range S.objs.length).card :=
              Finset.card_filter_le _ _
          _ = S.objs.length * S.objs.length := by
              rw [Finset.card_product]
              simp
      omega
    exact ⟨deepEq_of_unfold_eq genv S _ [] v1 v2 huf hbudget,
      deepEq_of_unfold_eq genv S _ [] v2 v1 (fun m => (huf m).symm) hbudget⟩
  · refine ⟨by decide, by decide, by decide, by decide, by decide, by decide⟩

/-- C2 witness: the general statement applied to the tests' concrete
cycles: the 1-cycle, 2-cycle and 3-cycle all compare equal pairwise in
both orders, and the cross-circular pair compares equal in both orders;
the identical-unfolding hypotheses are discharged by induction on the
depth. -/
theorem C2_witness :
    deepEqual genv0 S2 (.ref 0) (.ref 1) {} = true ∧
    deepEqual genv0 S2 (.ref 1) (.ref 0) {} = true ∧
    deepEqual genv0 S2 (.ref 0) (.ref 3) {} = true ∧
    deepEqual genv0 S2 (.ref 3) (.ref 0) {} = true ∧
    deepEqual genv0 S2 (.ref 1) (.ref 3) {} = true ∧
    deepEqual genv0 S2 (.ref 3) (.ref 1) {} = true ∧
    deepEqual genv0 S2c (.ref 1) (.ref 0) {} = true ∧
    deepEqual genv0 S2c (.ref 0) (.ref 1) {} = true := by
  have key : ∀ m, unfoldN genv0 S2 m (.ref 0) = unfoldN genv0 S2 m (.ref 1) ∧
      unfoldN genv0 S2 m (.ref 0) = unfoldN genv0 S2 m (.ref 2) ∧
      unfoldN genv0 S2 m (.ref 0) = unfoldN genv0 S2 m (.ref 3) ∧
      unfoldN genv0 S2 m (.ref 0) = unfoldN genv0 S2 m (.ref 4) ∧
      unfoldN genv0 S2 m (.ref 0) = unfoldN genv0 S2 m (.ref 5) := by
    intro m
    induction m with
    | zero => exact ⟨rfl, rfl, rfl, rfl, rfl⟩
    | succ n ihm =>
      obtain ⟨i1, i2, i3, i4, i5⟩ := ihm
      refine ⟨?_, ?_, ?_, ?_, ?_⟩
      · show RTree.node 0 [(Key.str "x", unfoldN genv0 S2 n (.ref 0))] =
          RTree.node 0 [(Key.str "x", unfoldN genv0 S2 n (.ref 2))]
        rw [i2]
      · show RTree.node 0 [(Key.str "x", unfoldN genv0 S2 n (.ref 0))] =
          RTree.node 0 [(Key.str "x", unfoldN genv0 S2 n (.ref 1))]
        rw [i1]
      · show RTree.node 0 [(Key.str "x", unfoldN genv0 S2 n (.ref 0))] =
          RTree.node 0 [(Key.str "x", unfoldN genv0 S2 n (.ref 4))]
        rw [i4]
      · show RTree.node 0 [(Key.str "x", unfoldN genv0 S2 n (.ref 0))] =
          RTree.node 0 [(Key.str "x", unfoldN genv0 S2 n (.ref 5))]
        rw [i5]
      · show RTree.node 0 [(Key.str "x", unfoldN genv0 S2 n (.ref 0))] =
          RTree.node 0 [(Key.str "x", unfoldN genv0 S2 n (.ref 3))]
        rw [i3]
  have key2 : ∀ m, unfoldN genv0 S2c m (.ref 1) = unfoldN genv0 S2c m (.ref 2) ∧
      unfoldN genv0 S2c m (.ref 0) = unfoldN genv0 S2c m (.ref 2) := by
    intro m
    induction m with
    | zero => exact ⟨rfl, rfl⟩
    | succ n ihm =>
      obtain ⟨i1, i2⟩ := ihm
      constructor
      · show RTree.node 0 [(Key.str "x", unfoldN genv0 S2c n (.ref 2)),
            (Key.str "y", unfoldN genv0 S2c n (.ref 0))] =
          RTree.node 0 [(Key.str "x", unfoldN genv0 S2c n (.ref 1)),
            (Key.str "y", unfoldN genv0 S2c n (.ref 2))]
        rw [i1, i2]
      · show RTree.node 0 [(Key.str "x", unfoldN genv0 S2c n (.ref 1)),
            (Key.str "y", unfoldN genv0 S2c n (.ref 0))] =
          RTree.node 0 [(Key.str "x", unfoldN genv0 S2c n (.ref 1)),
            (Key.str "y", unfoldN genv0 S2c n (.ref 2))]
        rw [i2]
  have h01 := C2_cycles.1 genv0 S2 (.ref 0) (.ref 1) (fun m => (key m).1)
  have h03 := C2_cycles.1 genv0 S2 (.ref 0) (.ref 3) (fun m => (key m).2.2.1)
  have h13 := C2_cycles.1 genv0 S2 (.ref 1) (.ref 3)
    (fun m => ((key m).1.symm.trans (key m).2.2.1))
  have h10 := C2_cycles.1 genv0 S2c (.ref 1) (.ref 0)
    (fun m => ((key2 m).1.trans (key2 m).2.symm))
  exact ⟨h01.1, h01.2, h03.1, h03.2, h13.1, h13.2, h10.1, h10.2⟩

theorem svzPrim_refl (p : Prim) : svzPrim p p = true := by
  unfold svzPrim
  split <;> simp_all

theorem svzV_refl (v : Val) : svzV v v = true := by
  cases v with
  | prim p => simpa [svzV] using svzPrim_refl p
  | ref a => simp [svzV]

theorem lookupSeen_mem {σ : List (Nat × Nat)} {a d : Nat}
    (h : lookupSeen σ a = some d) : (a, d) ∈ σ := by
  unfold lookupSeen at h
  cases hf : σ.find? (fun p => decide (p.1 = a)) with
  | none => rw [hf] at h; exact absurd h (by simp)
  | some p =>
    rw [hf] at h
    have hm := List.mem_of_find?_eq_some hf
    have hp := List.find?_some hf
    simp only [decide_eq_true_eq] at hp
    have : p = (a, d) := by
      cases p; simp_all
    rw [this] at hm; exact hm

theorem lookupSeen_cons_self (σ : List (Nat × Nat)) (a d : Nat) :
    lookupSeen ((a, d) :: σ) a = some d := by
  simp [lookupSeen, List.find?]

theorem lookupSeen_cons_of_none {σ : List (Nat × Nat)} {a : Nat} (d : Nat)
    (h : lookupSeen σ a = none) {s d' : Nat} (h2 : lookupSeen σ s = some d') :
    lookupSeen ((a, d) :: σ) s = some d' := by
  have hne : ¬(a = s) := by
    intro he; rw [he] at h; rw [h] at h2; exact Option.noConfusion h2
  unfold lookupSeen at h2 ⊢
  simp only [List.find?]
  have : (decide ((a, d).1 = s)) = false := by simpa using hne
  rw [this]
  exact h2

theorem seenExt_refl (σ : List (Nat × Nat)) : seenExt σ σ :=
  ⟨fun _ h => h, fun _ _ h => h⟩

theorem seenExt_trans {σ1 σ2 σ3 : List (Nat × Nat)}
    (h1 : seenExt σ1 σ2) (h2 : seenExt σ2 σ3) : seenExt σ1 σ3 :=
  ⟨fun _ h => h2.1 (h1.1 h), fun s d h => h2.2 s d (h1.2 s d h)⟩

theorem seenExt_cons {σ : List (Nat × Nat)} {a : Nat} (d : Nat)
    (h : lookupSeen σ a = none) : seenExt σ ((a, d) :: σ) :=
  ⟨fun _ hm => List.mem_cons_of_mem _ hm,
   fun _ _ h2 => lookupSeen_cons_of_none d h h2⟩

theorem valMapped_mono {S : Store} {σ σ2 : List (Nat × Nat)}
    (h : SeenLE σ σ2) {v w : Val} (hm : valMapped S σ v w) :
    valMapped S σ2 v w := by
  cases v with
  | prim p => exact hm
  | ref a =>
    simp only [valMapped] at hm ⊢
    cases hg : S.get? a with
    | none => rw [hg] at hm; exact hm
    | some o =>
      rw [hg] at hm
      obtain ⟨od, sp, ps⟩ := o
      dsimp only at hm ⊢
      cases od <;>
        first
        | exact hm
        | (obtain ⟨d, hw, hl⟩ := hm; exact ⟨d, hw, h _ _ hl⟩)

theorem PropsMapped_mono {S : Store} {σ σ2 : List (Nat × Nat)}
    (h : SeenLE σ σ2) {ps ps2 : List (Key × PropAttr)}
    (hm : PropsMapped S σ ps ps2) : PropsMapped S σ2 ps ps2 := by
  induction hm with
  | nil => exact .nil
  | skipProto attr ps ps2 _ ih => exact .skipProto attr ps ps2 ih
  | accessor k en g st ps ps2 hk _ ih => exact .accessor k en g st ps ps2 hk ih
  | dataStep k en v v2 ps ps2 hk hv _ ih =>
    exact .dataStep k en v v2 ps ps2 hk (valMapped_mono h hv) ih

theorem dataMapped_mono {S : Store} {σ σ2 : List (Nat × Nat)}
    (h : SeenLE σ σ2) {d1 d2 : ObjData} (hm : dataMapped S σ d1 d2) :
    dataMapped S σ2 d1 d2 := by
  cases d1 <;> cases d2 <;> simp only [dataMapped] at hm ⊢ <;> try exact hm
  · exact List.Forall₂.imp (fun a b hab => valMapped_mono h hab) hm
  · exact List.Forall₂.imp (fun a b hab => ⟨hab.1, valMapped_mono h hab.2⟩) hm
  · exact List.Forall₂.imp (fun a b hab => valMapped_mono h hab) hm
  · exact ⟨hm.1, valMapped_mono h hm.2.1, hm.2.2⟩

theorem objMapped_mono {S T T2 : Store} {σ σ2 : List (Nat × Nat)} {s d : Nat}
    (h : SeenLE σ σ2) (hT : T2.get? d = T.get? d)
    (hm : objMapped S T σ s d) : objMapped S T2 σ2 s d := by
  obtain ⟨o, o2, h1, h2, h3, h4, h5⟩ := hm
  refine ⟨o, o2, h1, by rw [hT]; exact h2, h3, dataMapped_mono h h4, ?_⟩
  rcases h5 with h5 | h5
  · exact Or.inl h5
  · exact Or.inr (PropsMapped_mono h h5)

theorem nodup_snd_inj {l : List (Nat × Nat)}
    (h : (l.map Prod.snd).Nodup) {p q : Nat × Nat}
    (hp : p ∈ l) (hq : q ∈ l) (he : p.2 = q.2) : p = q := by
  induction l with
  | nil => exact absurd hp (List.not_mem_nil _)
  | cons x xs ih =>
    rw [List.map_cons, List.nodup_cons] at h
    rcases List.mem_cons.mp hp with hp1 | hp2 <;>
      rcases List.mem_cons.mp hq with hq1 | hq2
    · rw [hp1, hq1]
    · refine absurd ?_ h.1
      rw [← hp1, he]
      exact List.mem_map_of_mem Prod.snd hq2
    · refine absurd ?_ h.1
      rw [← hq1, ← he]
      exact List.mem_map_of_mem Prod.snd hp2
    · exact ih h.2 hp2 hq2

/-- Registering a fresh pair and reserving its address preserves the
invariant, with the new pair pending. -/
theorem cinv_register {S : Store} {P : List (Nat × Nat)} {st : CSt} {a : Nat}
    {o : Obj} (hcinv : cinv S P st) (hseen : lookupSeen st.seen a = none)
    (hS : S.get? a = some o) (hnf : notFunc o.data) :
    cinv S ((a, st.store.objs.length) :: P)
      ⟨st.store.push ⟨.plain, 0, []⟩, (a, st.store.objs.length) :: st.seen⟩ := by
  obtain ⟨hlen, hsrc, hpairs, hnd, hdone⟩ := hcinv
  refine ⟨?_, ?_, ?_, ?_, ?_⟩
  · simp only [Store.push_length]; omega
  · intro x hx
    exact (Store.get?_push_lt _ _ x (by omega)).trans (hsrc x hx)
  · intro p hp
    rcases List.mem_cons.mp hp with h1 | h2
    · subst h1
      exact ⟨Store.get?_lt hS, hlen, by simp [Store.push_length], o, hS, hnf⟩
    · obtain ⟨b1, b2, b3, b4⟩ := hpairs p h2
      exact ⟨b1, b2, by simp only [Store.push_length]; omega, b4⟩
  · rw [List.map_cons, List.nodup_cons]
    refine ⟨fun hc => ?_, hnd⟩
    obtain ⟨p, hp, hp2⟩ := List.mem_map.mp hc
    have := (hpairs p hp).2.2.1
    omega
  · intro p hp
    rcases List.mem_cons.mp hp with h1 | h2
    · exact Or.inl (h1 ▸ List.mem_cons_self _ _)
    · rcases hdone p h2 with hP | hM
      · exact Or.inl (List.mem_cons_of_mem _ hP)
      · refine Or.inr (objMapped_mono (seenExt_cons _ hseen).2
          (Store.get?_push_lt _ _ _ (hpairs p h2).2.2.1) hM)

/-- Writing the finished object at the reserved address completes this
call's pair and preserves everything else. -/
theorem cinv_finish {S : Store} {P : List (Nat × Nat)} {st2 : CSt}
    {a dst : Nat} {o o2 : Obj}
    (hc : cinv S ((a, dst) :: P) st2)
    (hmem : (a, dst) ∈ st2.seen)
    (hS : S.get? a = some o)
    (hsp : o2.species = o.species)
    (hdm : dataMapped S st2.seen o.data o2.data)
    (hpm : leafData o.data ∨ PropsMapped S st2.seen o.props o2.props) :
    cinv S P ⟨st2.store.setObj dst o2, st2.seen⟩ := by
  obtain ⟨hlen, hsrc, hpairs, hnd, hdone⟩ := hc
  have hdst : dst < st2.store.objs.length := (hpairs _ hmem).2.2.1
  have hdst2 : S.objs.length ≤ dst := (hpairs _ hmem).2.1
  have hself : objMapped S (st2.store.setObj dst o2) st2.seen a dst := by
    exact ⟨o, o2, hS, Store.get?_setObj_self _ _ _ hdst, hsp, hdm, hpm⟩
  refine ⟨?_, ?_, ?_, hnd, ?_⟩
  · simp only [Store.setObj_length]; omega
  · intro x hx
    rw [Store.get?_setObj_ne _ _ _ _ (by omega)]
    exact hsrc x hx
  · intro p hp
    obtain ⟨b1, b2, b3, b4⟩ := hpairs p hp
    exact ⟨b1, b2, by simp only [Store.setObj_length]; omega, b4⟩
  · intro p hp
    by_cases hpd : p = (a, dst)
    · subst hpd; exact Or.inr hself
    · rcases hdone p hp with hP | hM
      · rcases List.mem_cons.mp hP with h1 | h2
        · exact absurd h1 hpd
        · exact Or.inl h2
      · have hpne : ¬(p.2 = dst) := fun he =>
          hpd (nodup_snd_inj hnd hp hmem he)
        exact Or.inr (objMapped_mono (fun _ _ h => h)
          (Store.get?_setObj_ne _ _ _ _ hpne) hM)

theorem cloneVals_mapped {S : Store} {P : List (Nat × Nat)}
    (cf : CSt → Val → CSt × Val) (ok1 : Val → Bool)
    (hcf : ∀ st v, ok1 v = true → cinv S P st → cloneSpec S P st (cf st v) v) :
    ∀ (es : List Val) (st : CSt), es.all ok1 = true → cinv S P st →
      SExt st.store (cloneVals cf st es).1.store ∧
      seenExt st.seen (cloneVals cf st es).1.seen ∧
      cinv S P (cloneVals cf st es).1 ∧
      List.Forall₂ (valMapped S (cloneVals cf st es).1.seen)
        es (cloneVals cf st es).2 := by
  intro es
  induction es with
  | nil =>
    intro st _ hc
    exact ⟨SExt.refl _, seenExt_refl _, hc, List.Forall₂.nil⟩
  | cons v rest ih =>
    intro st hall hc
    rw [List.all_cons, Bool.and_eq_true] at hall
    obtain ⟨e1, e2, e3, e4⟩ := hcf st v hall.1 hc
    obtain ⟨r1, r2, r3, r4⟩ := ih (cf st v).1 hall.2 e3
    rw [cloneVals]
    exact ⟨SExt.trans e1 r1, seenExt_trans e2 r2, r3,
      List.Forall₂.cons (valMapped_mono r2.2 e4) r4⟩

theorem cloneEntries_mapped {S : Store} {P : List (Nat × Nat)}
    (cf : CSt → Val → CSt × Val) (ok1 : Val → Bool)
    (hcf : ∀ st v, ok1 v = true → cinv S P st → cloneSpec S P st (cf st v) v) :
    ∀ (en : List (Val × Val)) (st : CSt),
      en.all (fun e => ok1 e.2) = true → cinv S P st →
      SExt st.store (cloneEntries cf st en).1.store ∧
      seenExt st.seen (cloneEntries cf st en).1.seen ∧
      cinv S P (cloneEntries cf st en).1 ∧
      List.Forall₂
        (fun e e2 => e2.1 = e.1 ∧
          valMapped S (cloneEntries cf st en).1.seen e.2 e2.2)
        en (cloneEntries cf st en).2 := by
  intro en
  induction en with
  | nil =>
    intro st _ hc
    exact ⟨SExt.refl _, seenExt_refl _, hc, List.Forall₂.nil⟩
  | cons e rest ih =>
    intro st hall hc
    obtain ⟨k, v⟩ := e
    rw [List.all_cons, Bool.and_eq_true] at hall
    obtain ⟨e1, e2, e3, e4⟩ := hcf st v hall.1 hc
    obtain ⟨r1, r2, r3, r4⟩ := ih (cf st v).1 hall.2 e3
    rw [cloneEntries]
    exact ⟨SExt.trans e1 r1, seenExt_trans e2 r2, r3,
      List.Forall₂.cons ⟨rfl, valMapped_mono r2.2 e4⟩ r4⟩

theorem cloneProps_mapped {S : Store} {P : List (Nat × Nat)}
    (isShallow : Key → Bool) (cf : CSt → Key → Val → CSt × Val)
    (ok1 : Val → Bool) (hsh : ∀ k, isShallow k = false)
    (hcf : ∀ st k v, ok1 v = true → cinv S P st →
      cloneSpec S P st (cf st k v) v) :
    ∀ (ps : List (Key × PropAttr)) (st : CSt),
      okProps ok1 ps = true → cinv S P st →
      SExt st.store (cloneProps true isShallow cf st ps).1.store ∧
      seenExt st.seen (cloneProps true isShallow cf st ps).1.seen ∧
      cinv S P (cloneProps true isShallow cf st ps).1 ∧
      PropsMapped S (cloneProps true isShallow cf st ps).1.seen
        ps (cloneProps true isShallow cf st ps).2 := by
  intro ps
  induction ps with
  | nil =>
    intro st _ hc
    exact ⟨SExt.refl _, seenExt_refl _, hc, PropsMapped.nil⟩
  | cons kp rest ih =>
    intro st hok hc
    obtain ⟨k, en, pk⟩ := kp
    rw [okProps, List.all_cons, Bool.and_eq_true] at hok
    rw [cloneProps]
    by_cases h1 : k = Key.str "__proto__"
    · rw [if_pos h1]
      obtain ⟨r1, r2, r3, r4⟩ := ih st (by rw [okProps]; exact hok.2) hc
      subst h1
      exact ⟨r1, r2, r3, PropsMapped.skipProto _ _ _ r4⟩
    · rw [if_neg h1]
      have hsk : (isSymKey k && !true) = false := by simp
      rw [hsk, if_neg (by simp)]
      cases pk with
      | accessor g sst =>
        obtain ⟨r1, r2, r3, r4⟩ := ih st (by rw [okProps]; exact hok.2) hc
        exact ⟨r1, r2, r3, PropsMapped.accessor k en g sst _ _ h1 r4⟩
      | data v =>
        dsimp only
        rw [hsh k, if_neg (by simp)]
        have hokv : ok1 v = true := by simpa using hok.1
        obtain ⟨e1, e2, e3, e4⟩ := hcf st k v hokv hc
        obtain ⟨r1, r2, r3, r4⟩ := ih (cf st k v).1
          (by rw [okProps]; exact hok.2) e3
        exact ⟨SExt.trans e1 r1, seenExt_trans e2 r2, r3,
          PropsMapped.dataStep k en v _ _ _ h1 (valMapped_mono r2.2 e4) r4⟩

theorem okV_prim (S : Store) (n : Nat) (p : Prim) :
    okV S n (.prim p) = true := by
  cases n <;> rfl

theorem cloneV_mapped (S : Store) :
    ∀ (fc n : Nat), n ≤ fc →
      ∀ (P : List (Nat × Nat)) (st : CSt) (path : List Key) (v : Val),
        okV S n v = true → cinv S P st →
        cloneSpec S P st (cloneV {} fc st path v) v := by
  intro fc
  induction fc with
  | zero =>
    intro n hn P st path v hok hc
    have hn0 : n = 0 := Nat.le_zero.mp hn
    subst hn0
    cases v with
    | prim p =>
      rw [cloneV]
      exact ⟨SExt.refl _, seenExt_refl _, hc, rfl⟩
    | ref a => rw [okV] at hok; exact absurd hok (by simp)
  | succ fc ih =>
    intro n hn P st path v hok hc
    cases v with
    | prim p =>
      rw [cloneV.eq_def]
      exact ⟨SExt.refl _, seenExt_refl _, hc, rfl⟩
    | ref a =>
      cases n with
      | zero => rw [okV] at hok; exact absurd hok (by simp)
      | succ n =>
        rw [okV] at hok
        cases hS : S.get? a with
        | none => rw [hS] at hok; exact absurd hok (by simp)
        | some o =>
          rw [hS] at hok
          obtain ⟨od, sp, ps⟩ := o
          dsimp only at hok
          have halt : a < S.objs.length := Store.get?_lt hS
          have hsta : st.store.get? a = some ⟨od, sp, ps⟩ := by
            rw [hc.2.1 a halt]; exact hS
          have hnle : n ≤ fc := Nat.le_of_succ_le_succ hn
          rw [cloneV.eq_def]
          cases hseen : lookupSeen st.seen a with
          | some d =>
            simp only [hseen]
            refine ⟨SExt.refl _, seenExt_refl _, hc, ?_⟩
            have hp := hc.2.2.1 (a, d) (lookupSeen_mem hseen)
            dsimp only at hp
            obtain ⟨_, _, _, o', hS', hnf⟩ := hp
            rw [hS] at hS'
            obtain rfl : o' = ⟨od, sp, ps⟩ := by
              injection hS' with h2; exact h2.symm
            rw [valMapped, hS]
            dsimp only at hnf ⊢
            cases od <;>
              first
              | exact ⟨d, rfl, hseen⟩
              | exact hnf.elim
          | none =>
            simp only [hseen, hsta]
            dsimp only
            cases od with
            | funcObj f =>
              refine ⟨SExt.refl _, seenExt_refl _, hc, ?_⟩
              rw [valMapped, hS]
            | date t =>
              refine ⟨SExt.write (SExt.push _ _) _ _ (le_refl _),
                seenExt_cons _ hseen, ?_, ?_⟩
              · exact cinv_finish (cinv_register hc hseen hS trivial)
                  (List.mem_cons_self _ _) hS rfl rfl (Or.inl trivial)
              · rw [valMapped, hS]
                exact ⟨st.store.objs.length, rfl,
                  lookupSeen_cons_self st.seen a _⟩
            | regexp rsrc rflg =>
              refine ⟨SExt.write (SExt.push _ _) _ _ (le_refl _),
                seenExt_cons _ hseen, ?_, ?_⟩
              · exact cinv_finish (cinv_register hc hseen hS trivial)
                  (List.mem_cons_self _ _) hS rfl ⟨rfl, rfl⟩ (Or.inl trivial)
              · rw [valMapped, hS]
                exact ⟨st.store.objs.length, rfl,
                  lookupSeen_cons_self st.seen a _⟩
            | buffer bs =>
              refine ⟨SExt.write (SExt.push _ _) _ _ (le_refl _),
                seenExt_cons _ hseen, ?_, ?_⟩
              · exact cinv_finish (cinv_register hc hseen hS trivial)
                  (List.mem_cons_self _ _) hS rfl rfl (Or.inl trivial)
              · rw [valMapped, hS]
                exact ⟨st.store.objs.length, rfl,
                  lookupSeen_cons_self st.seen a _⟩
            | urlObj u =>
              refine ⟨SExt.write (SExt.push _ _) _ _ (le_refl _),
                seenExt_cons _ hseen, ?_, ?_⟩
              · exact cinv_finish (cinv_register hc hseen hS trivial)
                  (List.mem_cons_self _ _) hS rfl rfl (Or.inl trivial)
              · rw [valMapped, hS]
                exact ⟨st.store.objs.length, rfl,
                  lookupSeen_cons_self st.seen a _⟩
            | plain =>
              rw [Bool.and_eq_true] at hok
              have hreg := cinv_register hc hseen hS trivial
              obtain ⟨r1, r2, r3, r4⟩ :=
                cloneProps_mapped _ _ (okV S n) (fun _ => rfl)
                  (fun st2 k v2 hokv hc2 =>
                    ih n hnle _ st2 (path ++ [k]) v2 hokv hc2)
                  ps _ hok.2 hreg
              refine ⟨SExt.write (SExt.trans (SExt.push _ _) r1) _ _ (le_refl _),
                seenExt_trans (seenExt_cons _ hseen) r2, ?_, ?_⟩
              · exact cinv_finish r3
                  (r2.1 (List.mem_cons_self _ _)) hS rfl trivial (Or.inr r4)
              · rw [valMapped, hS]
                exact ⟨st.store.objs.length, rfl,
                  r2.2 _ _ (lookupSeen_cons_self st.seen a _)⟩
            | array es =>
              rw [Bool.and_eq_true] at hok
              have hreg := cinv_register hc hseen hS trivial
              obtain ⟨e1, e2, e3, e4⟩ :=
                cloneVals_mapped _ (okV S n)
                  (fun st2 v2 hokv hc2 => ih n hnle _ st2 path v2 hokv hc2)
                  es _ hok.2 hreg
              obtain ⟨r1, r2, r3, r4⟩ :=
                cloneProps_mapped _ _ (okV S n) (fun _ => rfl)
                  (fun st2 k v2 hokv hc2 =>
                    ih n hnle _ st2 (path ++ [k]) v2 hokv hc2)
                  ps _ hok.1 e3
              refine ⟨SExt.write (SExt.trans (SExt.push _ _)
                  (SExt.trans e1 r1)) _ _ (le_refl _),
                seenExt_trans (seenExt_cons _ hseen) (seenExt_trans e2 r2),
                ?_, ?_⟩
              · refine cinv_finish r3
                  (r2.1 (e2.1 (List.mem_cons_self _ _))) hS rfl ?_ (Or.inr r4)
                exact List.Forall₂.imp
                  (fun x y hxy => valMapped_mono r2.2 hxy) e4
              · rw [valMapped, hS]
                exact ⟨st.store.objs.length, rfl,
                  r2.2 _ _ (e2.2 _ _ (lookupSeen_cons_self st.seen a _))⟩
            | setData es =>
              simp only [Bool.and_eq_true] at hok
              obtain ⟨⟨⟨hclean, hops⟩, hpw⟩, hall⟩ := hok
              have hreg := cinv_register hc hseen hS trivial
              obtain ⟨e1, e2, e3, e4⟩ :=
                cloneVals_mapped _ (okV S n)
                  (fun st2 v2 hokv hc2 => ih n hnle _ st2 path v2 hokv hc2)
                  es _ hall hreg
              obtain ⟨r1, r2, r3, r4⟩ :=
                cloneProps_mapped _ _ (okV S n) (fun _ => rfl)
                  (fun st2 k v2 hokv hc2 =>
                    ih n hnle _ st2 (path ++ [k]) v2 hokv hc2)
                  ps _ hops e3
              refine ⟨SExt.write (SExt.trans (SExt.push _ _)
                  (SExt.trans e1 r1)) _ _ (le_refl _),
                seenExt_trans (seenExt_cons _ hseen) (seenExt_trans e2 r2),
                ?_, ?_⟩
              · refine cinv_finish r3
                  (r2.1 (e2.1 (List.mem_cons_self _ _))) hS rfl ?_ (Or.inr r4)
                exact List.Forall₂.imp
                  (fun x y hxy => valMapped_mono r2.2 hxy) e4
              · rw [valMapped, hS]
                exact ⟨st.store.objs.length, rfl,
                  r2.2 _ _ (e2.2 _ _ (lookupSeen_cons_self st.seen a _))⟩
            | mapData en =>
              simp only [Bool.and_eq_true] at hok
              obtain ⟨⟨⟨hclean, hops⟩, hpw⟩, hall⟩ := hok
              have hreg := cinv_register hc hseen hS trivial
              obtain ⟨e1, e2, e3, e4⟩ :=
                cloneEntries_mapped _ (okV S n)
                  (fun st2 v2 hokv hc2 => ih n hnle _ st2 path v2 hokv hc2)
                  en _ hall hreg
              obtain ⟨r1, r2, r3, r4⟩ :=
                cloneProps_mapped _ _ (okV S n) (fun _ => rfl)
                  (fun st2 k v2 hokv hc2 =>
                    ih n hnle _ st2 (path ++ [k]) v2 hokv hc2)
                  ps _ hops e3
              refine ⟨SExt.write (SExt.trans (SExt.push _ _)
                  (SExt.trans e1 r1)) _ _ (le_refl _),
                seenExt_trans (seenExt_cons _ hseen) (seenExt_trans e2 r2),
                ?_, ?_⟩
              · refine cinv_finish r3
                  (r2.1 (e2.1 (List.mem_cons_self _ _))) hS rfl ?_ (Or.inr r4)
                exact List.Forall₂.imp
                  (fun x y hxy => ⟨hxy.1, valMapped_mono r2.2 hxy.2⟩) e4
              · rw [valMapped, hS]
                exact ⟨st.store.objs.length, rfl,
                  r2.2 _ _ (e2.2 _ _ (lookupSeen_cons_self st.seen a _))⟩
            | errObj nm msg stk =>
              simp only [Bool.and_eq_true] at hok
              obtain ⟨⟨hclean, hops⟩, hmsg⟩ := hok
              obtain ⟨mp, rfl⟩ : ∃ p, msg = .prim p := by
                cases msg with
                | prim p => exact ⟨p, rfl⟩
                | ref b => exact absurd hmsg (by rw [msgReflexive]; simp)
              have hreg := cinv_register hc hseen hS trivial
              obtain ⟨e1, e2, e3, e4⟩ :=
                ih n hnle _ _ path (.prim mp) (okV_prim S n mp) hreg
              obtain ⟨r1, r2, r3, r4⟩ :=
                cloneProps_mapped _ _ (okV S n) (fun _ => rfl)
                  (fun st2 k v2 hokv hc2 =>
                    ih n hnle _ st2 (path ++ [k]) v2 hokv hc2)
                  ps _ hops e3
              refine ⟨SExt.write (SExt.trans (SExt.push _ _)
                  (SExt.trans e1 r1)) _ _ (le_refl _),
                seenExt_trans (seenExt_cons _ hseen) (seenExt_trans e2 r2),
                ?_, ?_⟩
              · refine cinv_finish r3
                  (r2.1 (e2.1 (List.mem_cons_self _ _))) hS rfl
                  ⟨rfl, ?_, rfl⟩ (Or.inr r4)
                exact valMapped_mono r2.2 e4
              · rw [valMapped, hS]
                exact ⟨st.store.objs.length, rfl,
                  r2.2 _ _ (e2.2 _ _ (lookupSeen_cons_self st.seen a _))⟩

theorem keyIncluded_default (k : Key) : keyIncluded {} k = true := by
  cases k <;> rfl

theorem getProp_cons_self (k : Key) (attr : PropAttr)
    (ps : List (Key × PropAttr)) :
    getProp ((k, attr) :: ps) k = some attr := by
  simp [getProp, List.find?]

theorem getProp_cons_ne {k' k : Key} (attr : PropAttr)
    (ps : List (Key × PropAttr)) (h : ¬(k' = k)) :
    getProp ((k', attr) :: ps) k = getProp ps k := by
  simp only [getProp, List.find?]
  have : (decide ((k', attr).1 = k)) = false := by simpa using h
  rw [this]

theorem getProp_some_of_memkey :
    ∀ (ps : List (Key × PropAttr)) (k : Key),
      (∃ attr0, (k, attr0) ∈ ps) → ∃ attr, getProp ps k = some attr := by
  intro ps
  induction ps with
  | nil =>
    intro k ⟨attr0, h⟩
    exact absurd h (List.not_mem_nil _)
  | cons kp rest ih =>
    intro k ⟨attr0, h⟩
    obtain ⟨k', attr'⟩ := kp
    by_cases hk : k' = k
    · subst hk
      exact ⟨attr', getProp_cons_self k' attr' rest⟩
    · rcases List.mem_cons.mp h with h1 | h2
      · exact absurd (congrArg Prod.fst h1).symm hk
      · obtain ⟨attr, ha⟩ := ih k ⟨attr0, h2⟩
        exact ⟨attr, by rw [getProp_cons_ne attr' rest hk]; exact ha⟩

theorem considered_getProp {ps : List (Key × PropAttr)} {k : Key}
    (h : k ∈ consideredKeys {} ps) : ∃ attr, getProp ps k = some attr := by
  rw [consideredKeys] at h
  obtain ⟨kp, hkp, hk⟩ := List.mem_map.mp h
  obtain ⟨k', attr'⟩ := kp
  exact getProp_some_of_memkey ps k
    ⟨attr', by rw [← hk]; exact (List.mem_filter.mp hkp).1⟩

theorem considered_ne_proto {ps : List (Key × PropAttr)}
    (hcl : cleanProps ps = true) {k : Key}
    (hk : k ∈ consideredKeys {} ps) : ¬(k = Key.str "__proto__") := by
  rw [consideredKeys] at hk
  obtain ⟨kp, hkp, hkeq⟩ := List.mem_map.mp hk
  have hmem := (List.mem_filter.mp hkp).1
  have hpred := (List.mem_filter.mp hkp).2
  rw [Bool.and_eq_true] at hpred
  rw [cleanProps, List.all_eq_true] at hcl
  have := hcl kp hmem
  rw [hpred.1] at this
  simp only [Bool.true_and, Bool.not_eq_true', decide_eq_false_iff_not] at this
  rw [← hkeq]
  exact this

theorem consideredKeys_cons (o : EqOptions) (k : Key) (en : Bool)
    (pk : PropKind) (ps : List (Key × PropAttr)) :
    consideredKeys o ((k, ⟨en, pk⟩) :: ps) =
      if en && keyIncluded o k then k :: consideredKeys o ps
      else consideredKeys o ps := by
  simp only [consideredKeys, List.filter_cons]
  by_cases hb : (en && keyIncluded o k) = true
  · simp [hb]
  · simp [hb]

theorem PropsMapped_considered {S : Store} {σ : List (Nat × Nat)} :
    ∀ {ps ps2 : List (Key × PropAttr)}, PropsMapped S σ ps ps2 →
      cleanProps ps = true → consideredKeys {} ps2 = consideredKeys {} ps := by
  intro ps ps2 hm
  induction hm with
  | nil => intro _; rfl
  | skipProto attr ps ps2 _ ih =>
    intro hcl
    rw [cleanProps, List.all_cons, Bool.and_eq_true] at hcl
    have hen : attr.enumerable = false := by simpa using hcl.1
    obtain ⟨en, pk⟩ := attr
    rw [consideredKeys_cons]
    simp only at hen
    rw [hen]
    simp only [Bool.false_and, Bool.false_eq_true, if_false]
    exact ih (by rw [cleanProps]; exact hcl.2)
  | accessor k en g sst ps ps2 hk _ ih =>
    intro hcl
    rw [cleanProps, List.all_cons, Bool.and_eq_true] at hcl
    have ihr := ih (by rw [cleanProps]; exact hcl.2)
    rw [consideredKeys_cons, consideredKeys_cons, ihr]
  | dataStep k en v v2 ps ps2 hk _ _ ih =>
    intro hcl
    rw [cleanProps, List.all_cons, Bool.and_eq_true] at hcl
    have ihr := ih (by rw [cleanProps]; exact hcl.2)
    rw [consideredKeys_cons, consideredKeys_cons, ihr]

theorem PropsMapped_getProp {S : Store} {σ : List (Nat × Nat)} :
    ∀ {ps ps2 : List (Key × PropAttr)}, PropsMapped S σ ps ps2 →
      ∀ k, ¬(k = Key.str "__proto__") →
        (getProp ps k = none ∧ getProp ps2 k = none) ∨
        (∃ attr, getProp ps k = some attr ∧ getProp ps2 k = some attr ∧
          ∃ g sst, attr.kind = PropKind.accessor g sst) ∨
        (∃ en v v2, getProp ps k = some ⟨en, .data v⟩ ∧
          getProp ps2 k = some ⟨en, .data v2⟩ ∧ valMapped S σ v v2 ∧
          (k, (⟨en, PropKind.data v⟩ : PropAttr)) ∈ ps) := by
  intro ps ps2 hm
  induction hm with
  | nil => intro k _; exact Or.inl ⟨rfl, rfl⟩
  | skipProto attr ps ps2 _ ih =>
    intro k hk
    have hne : ¬(Key.str "__proto__" = k) := fun he => hk he.symm
    rw [getProp_cons_ne attr ps hne]
    rcases ih k hk with ⟨h1, h2⟩ | ⟨attr2, h1, h2, h3⟩ | ⟨en, v, v2, h1, h2, h3, h4⟩
    · exact Or.inl ⟨h1, h2⟩
    · exact Or.inr (Or.inl ⟨attr2, h1, h2, h3⟩)
    · exact Or.inr (Or.inr ⟨en, v, v2, h1, h2, h3, List.mem_cons_of_mem _ h4⟩)
  | accessor k' en g sst ps ps2 hk' _ ih =>
    intro k hk
    by_cases he : k' = k
    · subst he
      exact Or.inr (Or.inl ⟨⟨en, .accessor g sst⟩,
        getProp_cons_self _ _ _, getProp_cons_self _ _ _, g, sst, rfl⟩)
    · rw [getProp_cons_ne _ ps he, getProp_cons_ne _ ps2 he]
      rcases ih k hk with ⟨h1, h2⟩ | ⟨attr2, h1, h2, h3⟩ |
        ⟨en2, v, v2, h1, h2, h3, h4⟩
      · exact Or.inl ⟨h1, h2⟩
      · exact Or.inr (Or.inl ⟨attr2, h1, h2, h3⟩)
      · exact Or.inr (Or.inr ⟨en2, v, v2, h1, h2, h3, List.mem_cons_of_mem _ h4⟩)
  | dataStep k' en v v2 ps ps2 hk' hv _ ih =>
    intro k hk
    by_cases he : k' = k
    · subst he
      exact Or.inr (Or.inr ⟨en, v, v2, getProp_cons_self _ _ _,
        getProp_cons_self _ _ _, hv, List.mem_cons_self _ _⟩)
    · rw [getProp_cons_ne _ ps he, getProp_cons_ne _ ps2 he]
      rcases ih k hk with ⟨h1, h2⟩ | ⟨attr2, h1, h2, h3⟩ |
        ⟨en2, v', v2', h1, h2, h3, h4⟩
      · exact Or.inl ⟨h1, h2⟩
      · exact Or.inr (Or.inl ⟨attr2, h1, h2, h3⟩)
      · exact Or.inr (Or.inr ⟨en2, v', v2', h1, h2, h3,
          List.mem_cons_of_mem _ h4⟩)

theorem eqProps_of_mapped {S : Store} {σ : List (Nat × Nat)}
    (genv : GetterEnv) (f : Val → Val → Bool)
    {ps ps2 : List (Key × PropAttr)} (hm : PropsMapped S σ ps ps2)
    (hcl : cleanProps ps = true)
    (hid : ∀ v, f v v = true)
    (hdata : ∀ k en v v2, (k, (⟨en, PropKind.data v⟩ : PropAttr)) ∈ ps →
      valMapped S σ v v2 → f v v2 = true) :
    eqProps genv {} f ps ps2 = true := by
  have hck := PropsMapped_considered hm hcl
  rw [eqProps]
  simp only [hck, Bool.and_eq_true, List.all_eq_true, decide_eq_true_eq]
  refine ⟨⟨fun k hk => hk, fun k hk => hk⟩, ?_⟩
  intro k hk
  have hkp := considered_ne_proto hcl hk
  rcases PropsMapped_getProp hm k hkp with ⟨h1, h2⟩ |
    ⟨attr, h1, h2, g, sst, h3⟩ | ⟨en, v, v2, h1, h2, h3, h4⟩
  · obtain ⟨attr, ha⟩ := considered_getProp hk
    rw [h1] at ha; exact Option.noConfusion ha
  · rw [readOwn, readOwn, h1, h2]
    exact hid _
  · rw [readOwn, readOwn, h1, h2]
    exact hdata k en v v2 h4 h3

theorem svzDelete_none {x : Val} :
    ∀ {l : List Val}, (∀ y ∈ l, svzV x y = false) → svzDelete x l = none := by
  intro l
  induction l with
  | nil => intro _; rfl
  | cons y ys ih =>
    intro h
    rw [svzDelete, h y (List.mem_cons_self _ _),
      ih (fun z hz => h z (List.mem_cons_of_mem _ hz))]
    simp

theorem svz_false_forall₂ {f : Val → Val → Bool} {L b : Nat} :
    ∀ {xs ys : List Val},
      List.Forall₂ (fun x y => f x y = true ∧
        (y = x ∨ ((∃ b2, x = Val.ref b2 ∧ b2 < L) ∧
          ∃ d, y = Val.ref d ∧ L ≤ d))) xs ys →
      b < L →
      (∀ x' ∈ xs, svzV (Val.ref b) x' = false) →
      ∀ y' ∈ ys, svzV (Val.ref b) y' = false := by
  intro xs ys hf
  induction hf with
  | nil => intro _ _ y' hy'; exact absurd hy' (List.not_mem_nil _)
  | @cons x y l1 l2 hR hFtail ih =>
    intro hb hx y' hy'
    rcases List.mem_cons.mp hy' with h1 | h2
    · subst h1
      rcases hR.2 with hyx | ⟨_, ⟨d, hyd, hdL⟩⟩
      · rw [hyx]; exact hx x (List.mem_cons_self _ _)
      · rw [hyd]
        simp only [svzV, decide_eq_false_iff_not]
        omega
    · exact ih hb (fun z hz => hx z (List.mem_cons_of_mem _ hz)) y' h2

theorem greedySetMatch_pointwise (f : Val → Val → Bool) (L : Nat) :
    ∀ (xs ys : List Val), pairwiseNonSvz xs = true →
      List.Forall₂ (fun x y => f x y = true ∧
        (y = x ∨ ((∃ b, x = Val.ref b ∧ b < L) ∧
          ∃ d, y = Val.ref d ∧ L ≤ d))) xs ys →
      greedySetMatch f xs ys = true := by
  intro xs
  induction xs with
  | nil =>
    intro ys _ hf
    cases hf
    rfl
  | cons x xs ih =>
    intro ys hpw hf
    cases hf with
    | @cons _ y _ ys2 hR hFtail =>
      rw [pairwiseNonSvz, Bool.and_eq_true] at hpw
      rcases hR.2 with hyx | ⟨⟨b, hxb, hbL⟩, ⟨d, hyd, hdL⟩⟩
      · subst hyx
        rw [greedySetMatch, svzDelete, svzV_refl]
        simp only [if_true]
        exact ih ys2 hpw.2 hFtail
      · subst hxb
        subst hyd
        have hxall : ∀ x' ∈ xs, svzV (Val.ref b) x' = false := by
          intro x' hx'
          have := List.all_eq_true.mp hpw.1 x' hx'
          simpa using this
        have h1 : svzV (Val.ref b) (Val.ref d) = false := by
          simp only [svzV, decide_eq_false_iff_not]
          omega
        have htail : ∀ y' ∈ ys2, svzV (Val.ref b) y' = false :=
          svz_false_forall₂ hFtail hbL hxall
        have hdel : svzDelete (Val.ref b) (Val.ref d :: ys2) = none := by
          rw [svzDelete, h1, svzDelete_none htail]
          simp
        have hedel : eqDelete (f (Val.ref b)) (Val.ref d :: ys2) = some ys2 := by
          rw [eqDelete, hR.1]
          simp
        rw [greedySetMatch, hdel, hedel]
        exact ih ys2 hpw.2 hFtail

theorem eqMapEntries_pointwise (f : Val → Val → Bool) :
    ∀ (en1 en2 : List (Val × Val)),
      pairwiseNonSvz (en1.map Prod.fst) = true →
      List.Forall₂ (fun e e2 => e2.1 = e.1 ∧ f e.2 e2.2 = true) en1 en2 →
      eqMapEntries f en1 en2 = true := by
  intro en1
  induction en1 with
  | nil =>
    intro en2 _ hf
    cases hf
    rfl
  | cons e rest ih =>
    intro en2 hpw hf
    cases hf with
    | @cons _ e2 _ rest2 hR hFtail =>
      obtain ⟨k, v⟩ := e
      obtain ⟨k2, v2⟩ := e2
      obtain ⟨hk2, hfv⟩ := hR
      dsimp only at hk2 hfv
      subst hk2
      rw [List.map_cons, pairwiseNonSvz, Bool.and_eq_true] at hpw
      have ihr := ih rest2 hpw.2 hFtail
      rw [eqMapEntries, Bool.and_eq_true] at ihr
      rw [eqMapEntries, Bool.and_eq_true]
      refine ⟨?_, ?_⟩
      · simp only [List.length_cons, decide_eq_true_eq]
        have := ihr.1
        simp only [decide_eq_true_eq] at this
        omega
      · rw [List.all_cons, Bool.and_eq_true]
        refine ⟨?_, ?_⟩
        · have hget : svzGet ((k2, v2) :: rest2) k2 = some v2 := by
            simp [svzGet, List.find?, svzV_refl]
          simp only [hget]
          exact hfv
        · rw [List.all_eq_true]
          intro e he
          have hne : svzV k2 e.1 = false := by
            have := List.all_eq_true.mp hpw.1 e.1
              (List.mem_map_of_mem Prod.fst he)
            simpa using this
          have hskip : svzGet ((k2, v2) :: rest2) e.1 = svzGet rest2 e.1 := by
            simp [svzGet, List.find?, hne]
          simp only [hskip]
          exact List.all_eq_true.mp ihr.2 e he

theorem zipAll_pointwise (f : Val → Val → Bool) :
    ∀ {es es2 : List Val}, List.Forall₂ (fun x y => f x y = true) es es2 →
      ((es.zip es2).all (fun p => f p.1 p.2)) = true := by
  intro es es2 hf
  induction hf with
  | nil => rfl
  | @cons x y l1 l2 hR hFtail ih =>
    rw [List.zip_cons_cons, List.all_cons, Bool.and_eq_true]
    exact ⟨hR, ih⟩

theorem forall₂_and_left {α β : Type} {R : α → β → Prop} {Q : α → Prop} :
    ∀ {l1 : List α} {l2 : List β}, List.Forall₂ R l1 l2 →
      (∀ x ∈ l1, Q x) → List.Forall₂ (fun x y => R x y ∧ Q x) l1 l2 := by
  intro l1 l2 hf
  induction hf with
  | nil => intro _; exact .nil
  | @cons x y t1 t2 hR hFtail ih =>
    intro hq
    exact .cons ⟨hR, hq x (List.mem_cons_self _ _)⟩
      (ih (fun z hz => hq z (List.mem_cons_of_mem _ hz)))

theorem dataMapped_kind {S : Store} {σ : List (Nat × Nat)} {d1 d2 : ObjData}
    (h : dataMapped S σ d1 d2) : d2.kind = d1.kind := by
  cases d1 <;> cases d2 <;> simp only [dataMapped] at h <;> rfl

theorem okProps_mem {ok : Val → Bool} {ps : List (Key × PropAttr)}
    (h : okProps ok ps = true) {k : Key} {en : Bool} {v : Val}
    (hm : (k, (⟨en, PropKind.data v⟩ : PropAttr)) ∈ ps) : ok v = true := by
  rw [okProps, List.all_eq_true] at h
  have := h _ hm
  simpa using this

theorem valMapped_shape {S : Store} {σ : List (Nat × Nat)}
    (hdom : ∀ s d, lookupSeen σ s = some d → S.objs.length ≤ d)
    {n : Nat} {x y : Val} (hox : okV S n x = true)
    (hv : valMapped S σ x y) :
    y = x ∨ ((∃ b, x = Val.ref b ∧ b < S.objs.length) ∧
      ∃ d, y = Val.ref d ∧ S.objs.length ≤ d) := by
  cases x with
  | prim p => exact Or.inl hv
  | ref b =>
    cases n with
    | zero => rw [okV] at hox; exact absurd hox (by simp)
    | succ n =>
      rw [okV] at hox
      cases hS : S.get? b with
      | none => rw [hS] at hox; exact absurd hox (by simp)
      | some ob =>
        rw [valMapped, hS] at hv
        obtain ⟨obd, obs, obp⟩ := ob
        dsimp only at hv
        cases obd <;>
          first
          | exact Or.inl hv
          | (obtain ⟨dd, hyd, hl⟩ := hv
             exact Or.inr ⟨⟨b, rfl, Store.get?_lt hS⟩, dd, hyd, hdom _ _ hl⟩)

theorem deepEq_of_mapped (genv : GetterEnv) (S T : Store)
    (σ : List (Nat × Nat))
    (hsrc : ∀ x, x < S.objs.length → T.get? x = S.get? x)
    (hdom : ∀ s d, lookupSeen σ s = some d → S.objs.length ≤ d)
    (hσ : ∀ s d, lookupSeen σ s = some d → objMapped S T σ s d) :
    ∀ (n : Nat) (v v2 : Val) (m : Nat) (seen : List (Nat × Nat)),
      okV S n v = true → valMapped S σ v v2 → n < m →
      deepEq genv T {} m seen v v2 = true := by
  intro n
  induction n with
  | zero =>
    intro v v2 m seen hok hm hnm
    cases v with
    | prim p =>
      rw [valMapped] at hm
      rw [hm]
      exact deepEq_refl genv T {} m seen _ (by omega)
    | ref a => rw [okV] at hok; exact absurd hok (by simp)
  | succ n ih =>
    intro v v2 m seen hok hm hnm
    cases v with
    | prim p =>
      rw [valMapped] at hm
      rw [hm]
      exact deepEq_refl genv T {} m seen _ (by omega)
    | ref a =>
      rw [okV] at hok
      cases hS : S.get? a with
      | none => rw [hS] at hok; exact absurd hok (by simp)
      | some o =>
        rw [hS] at hok
        obtain ⟨od, sp, ps⟩ := o
        dsimp only at hok
        rw [valMapped, hS] at hm
        dsimp only at hm
        have haL : a < S.objs.length := Store.get?_lt hS
        cases od with
        | funcObj f =>
          rw [hm]
          exact deepEq_refl genv T {} m seen _ (by omega)
        | plain =>
          rw [Bool.and_eq_true] at hok
          obtain ⟨d, rfl, hlook⟩ := hm
          obtain ⟨o1, o2, h1, h2, hsp, hdm, hpm⟩ := hσ a d hlook
          rw [hS] at h1
          obtain rfl : o1 = ⟨.plain, sp, ps⟩ := by
            injection h1 with hh; exact hh.symm
          have hTa2 : T.get? a = some ⟨.plain, sp, ps⟩ := by
            rw [hsrc a haL]; exact hS
          obtain ⟨od2, sp2, ps2⟩ := o2
          dsimp only at hsp hdm hpm
          subst hsp
          cases od2 <;> simp only [dataMapped] at hdm
          rcases hpm with hleaf | hpm
          · exact absurd hleaf (by simp [leafData])
          have hda : S.objs.length ≤ d := hdom a d hlook
          have hne : ¬(Val.ref a = Val.ref d) := by
            intro hc; injection hc with hc2; omega
          cases m with
          | zero => omega
          | succ m =>
            rw [deepEq, if_neg hne]
            dsimp only
            simp only [hTa2, h2]
            rw [if_neg (by simp [ObjData.kind]), if_neg (by simp)]
            by_cases hsn : (a, d) ∈ seen
            · rw [if_pos hsn]
            · rw [if_neg hsn]
              refine eqProps_of_mapped genv _ hpm hok.1 ?_ ?_
              · intro w
                exact deepEq_refl genv T {} m _ w (by omega)
              · intro k en w w2 hmem hw
                exact ih w w2 m _ (okProps_mem hok.2 hmem) hw (by omega)
        | date t =>
          obtain ⟨d, rfl, hlook⟩ := hm
          obtain ⟨o1, o2, h1, h2, hsp, hdm, hpm⟩ := hσ a d hlook
          rw [hS] at h1
          obtain rfl : o1 = ⟨.date t, sp, ps⟩ := by
            injection h1 with hh; exact hh.symm
          have hTa2 : T.get? a = some ⟨.date t, sp, ps⟩ := by
            rw [hsrc a haL]; exact hS
          obtain ⟨od2, sp2, ps2⟩ := o2
          dsimp only at hsp hdm hpm
          subst hsp
          cases od2 <;> simp only [dataMapped] at hdm
          subst hdm
          have hda : S.objs.length ≤ d := hdom a d hlook
          have hne : ¬(Val.ref a = Val.ref d) := by
            intro hc; injection hc with hc2; omega
          cases m with
          | zero => omega
          | succ m =>
            rw [deepEq, if_neg hne]
            dsimp only
            simp only [hTa2, h2]
            simp
        | regexp rs rf =>
          obtain ⟨d, rfl, hlook⟩ := hm
          obtain ⟨o1, o2, h1, h2, hsp, hdm, hpm⟩ := hσ a d hlook
          rw [hS] at h1
          obtain rfl : o1 = ⟨.regexp rs rf, sp, ps⟩ := by
            injection h1 with hh; exact hh.symm
          have hTa2 : T.get? a = some ⟨.regexp rs rf, sp, ps⟩ := by
            rw [hsrc a haL]; exact hS
          obtain ⟨od2, sp2, ps2⟩ := o2
          dsimp only at hsp hdm hpm
          subst hsp
          cases od2 <;> simp only [dataMapped] at hdm
          obtain ⟨hd1, hd2⟩ := hdm
          subst hd1
          subst hd2
          have hda : S.objs.length ≤ d := hdom a d hlook
          have hne : ¬(Val.ref a = Val.ref d) := by
            intro hc; injection hc with hc2; omega
          cases m with
          | zero => omega
          | succ m =>
            rw [deepEq, if_neg hne]
            dsimp only
            simp only [hTa2, h2]
            simp
        | buffer bs =>
          obtain ⟨d, rfl, hlook⟩ := hm
          obtain ⟨o1, o2, h1, h2, hsp, hdm, hpm⟩ := hσ a d hlook
          rw [hS] at h1
          obtain rfl : o1 = ⟨.buffer bs, sp, ps⟩ := by
            injection h1 with hh; exact hh.symm
          have hTa2 : T.get? a = some ⟨.buffer bs, sp, ps⟩ := by
            rw [hsrc a haL]; exact hS
          obtain ⟨od2, sp2, ps2⟩ := o2
          dsimp only at hsp hdm hpm
          subst hsp
          cases od2 <;> simp only [dataMapped] at hdm
          subst hdm
          have hda : S.objs.length ≤ d := hdom a d hlook
          have hne : ¬(Val.ref a = Val.ref d) := by
            intro hc; injection hc with hc2; omega
          cases m with
          | zero => omega
          | succ m =>
            rw [deepEq, if_neg hne]
            dsimp only
            simp only [hTa2, h2]
            simp
        | urlObj u =>
          obtain ⟨d, rfl, hlook⟩ := hm
          obtain ⟨o1, o2, h1, h2, hsp, hdm, hpm⟩ := hσ a d hlook
          rw [hS] at h1
          obtain rfl : o1 = ⟨.urlObj u, sp, ps⟩ := by
            injection h1 with hh; exact hh.symm
          have hTa2 : T.get? a = some ⟨.urlObj u, sp, ps⟩ := by
            rw [hsrc a haL]; exact hS
          obtain ⟨od2, sp2, ps2⟩ := o2
          dsimp only at hsp hdm hpm
          subst hsp
          cases od2 <;> simp only [dataMapped] at hdm
          subst hdm
          have hda : S.objs.length ≤ d := hdom a d hlook
          have hne : ¬(Val.ref a = Val.ref d) := by
            intro hc; injection hc with hc2; omega
          cases m with
          | zero => omega
          | succ m =>
            rw [deepEq, if_neg hne]
            dsimp only
            simp only [hTa2, h2]
            simp
        | array es =>
          rw [Bool.and_eq_true] at hok
          obtain ⟨d, rfl, hlook⟩ := hm
          obtain ⟨o1, o2, h1, h2, hsp, hdm, hpm⟩ := hσ a d hlook
          rw [hS] at h1
          obtain rfl : o1 = ⟨.array es, sp, ps⟩ := by
            injection h1 with hh; exact hh.symm
          have hTa2 : T.get? a = some ⟨.array es, sp, ps⟩ := by
            rw [hsrc a haL]; exact hS
          obtain ⟨od2, sp2, ps2⟩ := o2
          dsimp only at hsp hdm hpm
          subst hsp
          cases od2 <;> simp only [dataMapped] at hdm
          rename_i es2
          have hda : S.objs.length ≤ d := hdom a d hlook
          have hne : ¬(Val.ref a = Val.ref d) := by
            intro hc; injection hc with hc2; omega
          cases m with
          | zero => omega
          | succ m =>
            rw [deepEq, if_neg hne]
            dsimp only
            simp only [hTa2, h2]
            rw [if_neg (by simp [ObjData.kind]), if_neg (by simp)]
            by_cases hsn : (a, d) ∈ seen
            · rw [if_pos hsn]
            · rw [if_neg hsn]
              rw [Bool.and_eq_true]
              constructor
              · simp [hdm.length_eq]
              · refine zipAll_pointwise _ ?_
                refine List.Forall₂.imp ?_ (forall₂_and_left hdm
                  (fun x hx => List.all_eq_true.mp hok.2 x hx))
                intro x y h
                exact ih x y m _ h.2 h.1 (by omega)
        | setData es =>
          simp only [Bool.and_eq_true] at hok
          obtain ⟨⟨⟨hclean, hops⟩, hpw⟩, hall⟩ := hok
          obtain ⟨d, rfl, hlook⟩ := hm
          obtain ⟨o1, o2, h1, h2, hsp, hdm, hpm⟩ := hσ a d hlook
          rw [hS] at h1
          obtain rfl : o1 = ⟨.setData es, sp, ps⟩ := by
            injection h1 with hh; exact hh.symm
          have hTa2 : T.get? a = some ⟨.setData es, sp, ps⟩ := by
            rw [hsrc a haL]; exact hS
          obtain ⟨od2, sp2, ps2⟩ := o2
          dsimp only at hsp hdm hpm
          subst hsp
          cases od2 <;> simp only [dataMapped] at hdm
          rename_i es2
          rcases hpm with hleaf | hpm
          · exact absurd hleaf (by simp [leafData])
          have hda : S.objs.length ≤ d := hdom a d hlook
          have hne : ¬(Val.ref a = Val.ref d) := by
            intro hc; injection hc with hc2; omega
          cases m with
          | zero => omega
          | succ m =>
            rw [deepEq, if_neg hne]
            dsimp only
            simp only [hTa2, h2]
            rw [if_neg (by simp [ObjData.kind]), if_neg (by simp)]
            by_cases hsn : (a, d) ∈ seen
            · rw [if_pos hsn]
            · rw [if_neg hsn]
              simp only [Bool.and_eq_true]
              refine ⟨⟨?_, ?_⟩, ?_⟩
              · simp [hdm.length_eq]
              · by_cases hsimple :
                  (es.all (fun x => es2.any (fun y => svzV x y))) = true
                · rw [if_pos hsimple]
                · rw [if_neg hsimple]
                  refine greedySetMatch_pointwise _ S.objs.length es es2 hpw ?_
                  refine List.Forall₂.imp ?_ (forall₂_and_left hdm
                    (fun x hx => List.all_eq_true.mp hall x hx))
                  intro x y h
                  exact ⟨ih x y m _ h.2 h.1 (by omega),
                    valMapped_shape hdom h.2 h.1⟩
              · refine eqProps_of_mapped genv _ hpm hclean ?_ ?_
                · intro w
                  exact deepEq_refl genv T {} m _ w (by omega)
                · intro k en w w2 hmem hw
                  exact ih w w2 m _ (okProps_mem hops hmem) hw (by omega)
        | mapData en =>
          simp only [Bool.and_eq_true] at hok
          obtain ⟨⟨⟨hclean, hops⟩, hpw⟩, hall⟩ := hok
          obtain ⟨d, rfl, hlook⟩ := hm
          obtain ⟨o1, o2, h1, h2, hsp, hdm, hpm⟩ := hσ a d hlook
          rw [hS] at h1
          obtain rfl : o1 = ⟨.mapData en, sp, ps⟩ := by
            injection h1 with hh; exact hh.symm
          have hTa2 : T.get? a = some ⟨.mapData en, sp, ps⟩ := by
            rw [hsrc a haL]; exact hS
          obtain ⟨od2, sp2, ps2⟩ := o2
          dsimp only at hsp hdm hpm
          subst hsp
          cases od2 <;> simp only [dataMapped] at hdm
          rename_i en2
          rcases hpm with hleaf | hpm
          · exact absurd hleaf (by simp [leafData])
          have hda : S.objs.length ≤ d := hdom a d hlook
          have hne : ¬(Val.ref a = Val.ref d) := by
            intro hc; injection hc with hc2; omega
          cases m with
          | zero => omega
          | succ m =>
            rw [deepEq, if_neg hne]
            dsimp only
            simp only [hTa2, h2]
            rw [if_neg (by simp [ObjData.kind]), if_neg (by simp)]
            by_cases hsn : (a, d) ∈ seen
            · rw [if_pos hsn]
            · rw [if_neg hsn]
              rw [Bool.and_eq_true]
              constructor
              · refine eqMapEntries_pointwise _ en en2 hpw ?_
                refine List.Forall₂.imp ?_ (forall₂_and_left hdm
                  (fun e he => List.all_eq_true.mp hall e he))
                intro e e2 h
                exact ⟨h.1.1, ih e.2 e2.2 m _ h.2 h.1.2 (by omega)⟩
              · refine eqProps_of_mapped genv _ hpm hclean ?_ ?_
                · intro w
                  exact deepEq_refl genv T {} m _ w (by omega)
                · intro k en3 w w2 hmem hw
                  exact ih w w2 m _ (okProps_mem hops hmem) hw (by omega)
        | errObj nm msg stk =>
          simp only [Bool.and_eq_true] at hok
          obtain ⟨⟨hclean, hops⟩, hmsg⟩ := hok
          obtain ⟨d, rfl, hlook⟩ := hm
          obtain ⟨o1, o2, h1, h2, hsp, hdm, hpm⟩ := hσ a d hlook
          rw [hS] at h1
          obtain rfl : o1 = ⟨.errObj nm msg stk, sp, ps⟩ := by
            injection h1 with hh; exact hh.symm
          have hTa2 : T.get? a = some ⟨.errObj nm msg stk, sp, ps⟩ := by
            rw [hsrc a haL]; exact hS
          obtain ⟨od2, sp2, ps2⟩ := o2
          dsimp only at hsp hdm hpm
          subst hsp
          cases od2 <;> simp only [dataMapped] at hdm
          rename_i nm2 msg2 stk2
          obtain ⟨hnm2, hvm, hstk⟩ := hdm
          subst hnm2
          subst hstk
          obtain ⟨mp, rfl⟩ : ∃ p, msg = .prim p := by
            cases msg with
            | prim p => exact ⟨p, rfl⟩
            | ref b => exact absurd hmsg (by rw [msgReflexive]; simp)
          rw [valMapped] at hvm
          subst hvm
          rw [msgReflexive] at hmsg
          rcases hpm with hleaf | hpm
          · exact absurd hleaf (by simp [leafData])
          have hstr : strictEqV (.prim mp) (.prim mp) = true := by
            rw [strictEqV]; exact hmsg
          have hda : S.objs.length ≤ d := hdom a d hlook
          have hne : ¬(Val.ref a = Val.ref d) := by
            intro hc; injection hc with hc2; omega
          cases m with
          | zero => omega
          | succ m =>
            rw [deepEq, if_neg hne]
            dsimp only
            simp only [hTa2, h2]
            rw [if_neg (by simp), if_neg (by simp), if_neg (by simp),
              if_neg (by simp [hstr])]
            by_cases hsn : (a, d) ∈ seen
            · rw [if_pos hsn]
            · rw [if_neg hsn]
              refine eqProps_of_mapped genv _ hpm hclean ?_ ?_
              · intro w
                exact deepEq_refl genv T {} m _ w (by omega)
              · intro k en w w2 hmem hw
                exact ih w w2 m _ (okProps_mem hops hmem) hw (by omega)

theorem clone_ref_nonfunc (S : Store) (a : Nat) (o : Obj)
    (opts : CloneOptions) (hobj : S.get? a = some o) (hnf : notFunc o.data) :
    (clone S (.ref a) opts).2 = .ref S.objs.length := by
  unfold clone
  rw [cloneV]
  simp only [lookupSeen_nil]
  rw [show (CSt.mk S []).store.get? a = some o from hobj]
  obtain ⟨od, sp, ps⟩ := o
  dsimp only
  cases od <;> first | rfl | exact hnf.elim

theorem clone_ref_func (S : Store) (a f sp : Nat)
    (ps : List (Key × PropAttr)) (opts : CloneOptions)
    (hobj : S.get? a = some ⟨.funcObj f, sp, ps⟩) :
    (clone S (.ref a) opts).2 = .ref a := by
  unfold clone
  rw [cloneV]
  simp only [lookupSeen_nil]
  rw [show (CSt.mk S []).store.get? a = some ⟨.funcObj f, sp, ps⟩ from hobj]

theorem cloneProps_shallow_mem (symbols : Bool) (isShallow : Key → Bool)
    (cf : CSt → Key → Val → CSt × Val) :
    ∀ (ps : List (Key × PropAttr)) (st : CSt) (k : Key) (en : Bool) (w : Val),
      (k, ⟨en, .data w⟩) ∈ ps → ¬(k = Key.str "__proto__") →
      (isSymKey k && !symbols) = false → isShallow k = true →
      (k, (⟨en, PropKind.data w⟩ : PropAttr)) ∈
        (cloneProps symbols isShallow cf st ps).2 := by
  intro ps
  induction ps with
  | nil => intro st k en w hk; exact absurd hk (List.not_mem_nil _)
  | cons kp rest ih =>
    intro st k en w hk hnp hsym hsh
    obtain ⟨k1, attr1⟩ := kp
    rw [cloneProps]
    rcases List.mem_cons.mp hk with hhead | htail
    · have hk1 : k = k1 := congrArg Prod.fst hhead
      have hattr1 : (⟨en, .data w⟩ : PropAttr) = attr1 := congrArg Prod.snd hhead
      subst hk1
      rw [if_neg hnp, if_neg (by simp [hsym])]
      rw [← hattr1]
      dsimp only
      rw [if_pos hsh]
      exact List.mem_cons_self _ _
    · by_cases h1 : k1 = Key.str "__proto__"
      · rw [if_pos h1]; exact ih st k en w htail hnp hsym hsh
      · rw [if_neg h1]
        by_cases h2 : (isSymKey k1 && !symbols) = true
        · rw [if_pos h2]; exact ih st k en w htail hnp hsym hsh
        · rw [if_neg h2]
          obtain ⟨en1, pk1⟩ := attr1
          cases pk1 with
          | accessor g1 s1 =>
            dsimp only
            exact List.mem_cons_of_mem _ (ih st k en w htail hnp hsym hsh)
          | data v1 =>
            dsimp only
            by_cases h3 : isShallow k1 = true
            · rw [if_pos h3]
              exact List.mem_cons_of_mem _ (ih st k en w htail hnp hsym hsh)
            · rw [if_neg h3]
              exact List.mem_cons_of_mem _ (ih _ k en w htail hnp hsym hsh)

/-- C1 (counterexample): two acyclic values on which the clone-equal
round trip fails under default options: an Error whose message is a
composite value (equal compares messages with === while clone
deep-copies them), and a record carrying an own enumerable `__proto__`
key (clone drops it while equal still sees it on the source). -/
theorem C1_cex :
    (acyclicV SE1 (SE1.objs.length + 1) (.ref 0) = true ∧
      deepEqual genv0 (clone SE1 (.ref 0) {}).1 (.ref 0)
        (clone SE1 (.ref 0) {}).2 {} = false) ∧
    (acyclicV S9p (S9p.objs.length + 1) (.ref 0) = true ∧
      deepEqual genv0 (clone S9p (.ref 0) {}).1 (.ref 0)
        (clone S9p (.ref 0) {}).2 {} = false) := by
  exact ⟨⟨by decide, by decide⟩, ⟨by decide, by decide⟩⟩

/-- C1 (amended): (a) for every acyclic, well-formed, clean value —
every reachable reference resolves, Set elements and Map keys are
pairwise SameValueZero-distinct, no reachable record carries an own
enumerable `__proto__` key, and every reachable Error message is a
`===`-reflexive primitive — `equal(v, clone(v))` is true under default
options; (b) the clone of a non-callable composite is never
reference-identical to its source; (c) callables are returned as the
same reference; (d) a data property selected by a shallow path is kept
on the clone with its value by reference. -/
theorem C1_amended :
    (∀ (genv : GetterEnv) (S : Store) (v : Val), Acyclic S v →
      deepEqual genv (clone S v {}).1 v (clone S v {}).2 {} = true) ∧
    (∀ (S : Store) (a : Nat) (o : Obj), S.get? a = some o →
      notFunc o.data → ¬((clone S (.ref a) {}).2 = .ref a)) ∧
    (∀ (S : Store) (a f sp : Nat) (ps : List (Key × PropAttr)),
      S.get? a = some ⟨.funcObj f, sp, ps⟩ →
      (clone S (.ref a) {}).2 = .ref a) ∧
    (∀ (S : Store) (a sp : Nat) (ps : List (Key × PropAttr)) (k : Key)
      (en : Bool) (w : Val) (sh : List (List Key)),
      S.get? a = some ⟨.plain, sp, ps⟩ →
      (k, ⟨en, .data w⟩) ∈ ps → ¬(k = Key.str "__proto__") → [k] ∈ sh →
      ∃ ps2, (clone S (.ref a) {shallow := sh}).1.get? S.objs.length =
          some ⟨.plain, sp, ps2⟩ ∧
        (k, (⟨en, PropKind.data w⟩ : PropAttr)) ∈ ps2) := by
  refine ⟨?_, ?_, ?_, ?_⟩
  · intro genv S v hok
    have hc0 : cinv S [] ⟨S, []⟩ :=
      ⟨le_refl _, fun _ _ => rfl,
       fun p hp => absurd hp (List.not_mem_nil _), List.nodup_nil,
       fun p hp => absurd hp (List.not_mem_nil _)⟩
    obtain ⟨hext, hsext, hcinv, hvm⟩ :=
      cloneV_mapped S (S.objs.length + 1) (S.objs.length + 1) (le_refl _)
        [] ⟨S, []⟩ [] v hok hc0
    refine deepEq_of_mapped genv S _ _ hcinv.2.1
      (fun s d hl => (hcinv.2.2.1 _ (lookupSeen_mem hl)).2.1)
      (fun s d hl => Or.resolve_left
        ((hcinv.2.2.2.2 _ (lookupSeen_mem hl)))
        (List.not_mem_nil _))
      (S.objs.length + 1) v _ _ [] hok hvm ?_
    have h1 := hcinv.1
    have h2 : (clone S v {}).1.objs.length =
        (cloneV {} (S.objs.length + 1) ⟨S, []⟩ [] v).1.store.objs.length := rfl
    rw [h2]
    rcases Nat.eq_zero_or_pos
      (cloneV {} (S.objs.length + 1) ⟨S, []⟩ [] v).1.store.objs.length
      with hz | hpos
    · omega
    · have h3 := Nat.le_mul_of_pos_left
        (cloneV {} (S.objs.length + 1) ⟨S, []⟩ [] v).1.store.objs.length hpos
      omega
  · intro S a o hobj hnf
    rw [clone_ref_nonfunc S a o {} hobj hnf]
    intro hc
    injection hc with hc2
    have := Store.get?_lt hobj
    omega
  · intro S a f sp ps hobj
    exact clone_ref_func S a f sp ps {} hobj
  · intro S a sp ps k en w sh hobj hmem hnp hsh
    obtain ⟨hv, ps2, hget, st2, hps2⟩ :=
      clone_ref_plain S a sp ps {shallow := sh} hobj
    refine ⟨ps2, hget, ?_⟩
    rw [hps2]
    exact cloneProps_shallow_mem _ _ _ ps st2 k en w hmem hnp (by simp)
      (by simpa using hsh)

/-- C1 (witness): the amended round trip and non-identity evaluated on
the Map store of the tests (a Map holding an object key by reference
and an object value): the clone compares equal and is a fresh
reference. -/
theorem C1_witness :
    deepEqual genv0 (clone S6m (.ref 1) {}).1 (.ref 1)
      (clone S6m (.ref 1) {}).2 {} = true ∧
    ¬((clone S6m (.ref 1) {}).2 = .ref 1) :=
  ⟨C1_amended.1 genv0 S6m (.ref 1)
     (show okV S6m (S6m.objs.length + 1) (.ref 1) = true by decide),
   C1_amended.2.1 S6m 1 ⟨.mapData [(vstr "a", vint 1), (.ref 0, vint 3),
     (vstr "c", .ref 0)], 0, []⟩ (by decide) (by simp [notFunc])⟩
